import Mathlib

/-!
Chrono-Loop granular engine: a shallow embedding of `Granulator.cpp`.

The C++ class `Granulator` (files `Granulator.h`, `Granulator.cpp`) is translated
function by function into Lean definitions over an explicit engine state.

Conventions of the embedding:

* `float` values are elements of a linearly ordered field `K` with a floor function
  (exact arithmetic, no rounding, no NaN).  All definitions are generic in `K`, so they
  run over `ℚ` and can be reasoned about over `ℝ`.
* The `<cmath>` functions `cosf`, `powf` and the constant `M_PI` are not part of the
  repository; they are the fields of a parameter `Libm K`.
* `int` is `Int` and `unsigned long` is `Nat`, both unbounded: lengths and tick counts
  are taken below `2^31`, where the conversions `(int)audioLength` and
  `(int)(currentIndex - startIndex)` neither wrap nor lose information.
* The conversion `(int)x` of a `float` is truncation toward zero, `castInt`.  C++
  defines it only when the truncated value is an `int`; `castInt32` is the conversion
  with that condition.  The step functions use `castInt`: they describe the code on
  parameters and positions below `2^31` in absolute value.
* A C array is a total function on `Int`; the cells of `float table[4410]` are the
  indices `0 .. 4409`, those of the voice pool the indices `0 .. 15`.  A read outside
  these cells has no defined value in C++; whether reads stay inside is a separate
  property of the state and not built into the types.
* A pointer `Grain*` into the pool is the index of the slot it points to.
* `cleanup`, which empties the pool, is not modelled: the pool has its 16 slots
  throughout.
-/

namespace ChronoLoop

/-! ## Constants and data model (`Granulator.h`) -/

/-- Pool capacity, `static const int MAX_GRAIN_VOICES = 16`. -/
def MAX_GRAIN_VOICES : Int := 16

/-- Table capacity, `static const int MAX_GRAIN_SIZE = 4410`. -/
def MAX_GRAIN_SIZE : Int := 4410

/-- The three names the engine takes from `<cmath>`. -/
structure Libm (K : Type) where
  cosf : K → K
  powf : K → K → K
  M_PI : K

/-- One voice, `struct Grain`. -/
structure Grain (K : Type) where
  table : Int → K
  startIndex : Nat
  voiceIndex : Int
  active : Bool

/-- Synthesis parameters, `struct Parameters`. -/
structure Parameters (K : Type) where
  grainSize : K
  grainRate : K
  playbackRate : K
  windowAlpha : K

/-- Member variables of `class Granulator`.  `audioBuffer = none` is the null pointer;
`some buf` is a pointer whose cell `i` holds `buf i`. -/
structure Granulator (K : Type) where
  grains : Int → Grain K
  params : Parameters K
  audioBuffer : Option (Int → K)
  audioLength : Nat
  globalIndex : Nat
  playbackPosition : K
  voiceCounter : Int
  sampleRate : K

section Engine

variable {K : Type} [LinearOrderedField K] [FloorRing K]

/-- The conversion `(int)x` of a floating value: truncation toward zero. -/
def castInt (x : K) : Int :=
  if 0 ≤ x then ⌊x⌋ else ⌈x⌉

/-! ## Buffer access (`Granulator::readAudioSample`) -/

/-- First loop of `readAudioSample`: `while(position < 0) position += audioLength;`. -/
def wrapUp (L : Int) (hL : 0 < L) (position : Int) : Int :=
  if position < 0 then wrapUp L hL (position + L) else position
termination_by (-position).toNat
decreasing_by omega

/-- Second loop of `readAudioSample`:
`while(position >= (int)audioLength) position -= audioLength;`.  On the lengths
considered (below `2^31`) the cast `(int)audioLength` is the length itself. -/
def wrapDown (L : Int) (hL : 0 < L) (position : Int) : Int :=
  if L ≤ position then wrapDown L hL (position - L) else position
termination_by position.toNat
decreasing_by omega

/-- `float Granulator::readAudioSample(int position)`. -/
def readAudioSample (e : Granulator K) (position : Int) : K :=
  match e.audioBuffer with
  | none => 0
  | some buf =>
    if h : e.audioLength = 0 then 0
    else
      have hL : (0 : Int) < (e.audioLength : Int) :=
        Int.ofNat_lt.mpr (Nat.pos_of_ne_zero h)
      buf (wrapDown e.audioLength hL (wrapUp e.audioLength hL position))

/-! ## Grain creation (`Granulator::makeGrain`) -/

/-- The copy loop of `makeGrain`:
`for(int i = 0; i < grainSizeSamples; i++) grain->table[i] = readAudioSample(playbackPos + i);`
run for `n` iterations on the table `table`. -/
def copyLoop (e : Granulator K) (playbackPos : Int) (n : Nat) (table : Int → K) : Int → K :=
  (List.range n).foldl
    (fun t (i : Nat) => Function.update t (i : Int) (readAudioSample e (playbackPos + (i : Int))))
    table

/-- `void Granulator::makeGrain(unsigned long triggerIndex, Grain* grain)`; the pointer
`grain` is the index of the slot in the pool. -/
def makeGrain (triggerIndex : Nat) (grain : Int) (e : Granulator K) : Granulator K :=
  let grainSizeSamples : Int := castInt e.params.grainSize
  let grainSizeSamples : Int :=
    if grainSizeSamples > MAX_GRAIN_SIZE then MAX_GRAIN_SIZE else grainSizeSamples
  let playbackPos : Int := castInt (e.playbackPosition + 1 / 2)
  let g := e.grains grain
  let g1 : Grain K :=
    { g with table := copyLoop e playbackPos grainSizeSamples.toNat g.table }
  let g2 : Grain K := { g1 with startIndex := triggerIndex }
  let g3 : Grain K := { g2 with active := true }
  { e with grains := Function.update e.grains grain g3 }

/-! ## Amplitude envelope (`Granulator::getAmplitude`) -/

/-- `float Granulator::getAmplitude(int grainPhase)`. -/
def getAmplitude (lib : Libm K) (e : Granulator K) (grainPhase : Int) : K :=
  let grainSize := e.params.grainSize
  let alpha := e.params.windowAlpha
  if (grainPhase : K) ≥ grainSize then 0
  else
    let fadeInLength := (alpha * grainSize) / 2
    let fadeOutStart := grainSize - fadeInLength
    if (grainPhase : K) < fadeInLength then
      (1 / 2) * (1 - lib.cosf ((2 * lib.M_PI * (grainPhase : K)) / (alpha * grainSize)))
    else if (grainPhase : K) ≤ fadeOutStart then 1
    else
      let fadeOutPhase := (grainPhase : K) - grainSize + fadeInLength
      (1 / 2) * (1 + lib.cosf ((2 * lib.M_PI * fadeOutPhase) / (alpha * grainSize)))

/-! ## Grain retrieval (`Granulator::getGrain`) -/

/-- `float Granulator::getGrain(unsigned long currentIndex, const Grain* grain)`: the
returned sample together with the engine state, in which the voice may have been
deactivated (the `const_cast` write). -/
def getGrain (lib : Libm K) (currentIndex : Nat) (grain : Int) (e : Granulator K) :
    K × Granulator K :=
  let g := e.grains grain
  if g.active = false then (0, e)
  else
    let grainPhase : Int := (currentIndex : Int) - (g.startIndex : Int)
    if grainPhase ≥ castInt e.params.grainSize ∨ grainPhase ≥ MAX_GRAIN_SIZE then
      (0, { e with grains := Function.update e.grains grain { g with active := false } })
    else
      let sample := g.table grainPhase
      let amplitude := getAmplitude lib e grainPhase
      (sample * amplitude, e)

/-! ## The per-sample step (`Granulator::process`) -/

/-- The remainder `index % divisor` of an `unsigned long` by an `int`.  The divisor is
converted to `unsigned long`: a non-negative divisor keeps its value, a negative one
becomes a value above every tick count, so that the remainder is the index itself.
The C++ `%` is undefined for the divisor 0; here it is the total `%` of `Int`, which
gives the index. -/
def remIndex (index : Nat) (divisor : Int) : Int :=
  if 0 ≤ divisor then (index : Int) % divisor else (index : Int)

/-- Lines 59-71 of `process`: advance the playback position, then, when
`globalIndex % (int)params.grainRate == 0`, create a grain in `grains[voiceCounter]` and
advance `voiceCounter` with wraparound. -/
def advanceAndTrigger (e : Granulator K) : Granulator K :=
  let e1 : Granulator K :=
    { e with playbackPosition := e.playbackPosition + e.params.playbackRate }
  if remIndex e1.globalIndex (castInt e1.params.grainRate) = 0 then
    let e2 := makeGrain e1.globalIndex e1.voiceCounter e1
    let e3 : Granulator K := { e2 with voiceCounter := e2.voiceCounter + 1 }
    if e3.voiceCounter ≥ MAX_GRAIN_VOICES then { e3 with voiceCounter := 0 } else e3
  else e1

/-- Lines 74-83 of `process`: the loop `for(int i = 0; i < MAX_GRAIN_VOICES; i++)` over
the first `n` voices, returning `(output, activeCount, state)`. -/
def sumActiveGrains (lib : Libm K) (n : Nat) (e : Granulator K) : K × Int × Granulator K :=
  (List.range n).foldl
    (fun acc (i : Nat) =>
      if (acc.2.2.grains (i : Int)).active = true then
        let r := getGrain lib acc.2.2.globalIndex (i : Int) acc.2.2
        (acc.1 + r.1, acc.2.1 + 1, r.2)
      else acc)
    (0, 0, e)

/-- The call `memset(table, 0, sizeof(table))`: zero in the 4410 cells of the table. -/
def memsetZero (table : Int → K) : Int → K :=
  fun j => if 0 ≤ j ∧ j < MAX_GRAIN_SIZE then 0 else table j

/-- Lines 96-100 of `process`: the loop clearing the first `n` voices. -/
def clearVoices (n : Nat) (e : Granulator K) : Granulator K :=
  (List.range n).foldl
    (fun s (i : Nat) =>
      let g := s.grains (i : Int)
      let g1 : Grain K := { g with active := false }
      let g2 : Grain K := { g1 with startIndex := 0 }
      let g3 : Grain K := { g2 with table := memsetZero g2.table }
      { s with grains := Function.update s.grains (i : Int) g3 })
    e

/-- Lines 90-101 of `process`: `globalIndex++`, then the loop-wraparound reset when
`playbackPosition >= audioLength`. -/
def advanceIndexAndWrap (e : Granulator K) : Granulator K :=
  let e1 : Granulator K := { e with globalIndex := e.globalIndex + 1 }
  if e1.playbackPosition ≥ (e1.audioLength : K) then
    let e2 : Granulator K := { e1 with playbackPosition := 0 }
    let e3 : Granulator K := { e2 with globalIndex := 0 }
    clearVoices MAX_GRAIN_VOICES.toNat e3
  else e1

/-- `float Granulator::process()`: the returned sample and the state left behind. -/
def process (lib : Libm K) (e : Granulator K) : K × Granulator K :=
  if e.audioBuffer.isNone = true ∨ e.audioLength = 0 then (0, e)
  else
    let e1 := advanceAndTrigger e
    let r := sumActiveGrains lib MAX_GRAIN_VOICES.toNat e1
    let output : K := if r.2.1 > 0 then r.1 * (1 / 3) else r.1
    (output, advanceIndexAndWrap r.2.2)

/-! ## Construction and setup -/

/-- The constructor `Grain()`. -/
def Grain.new : Grain K :=
  { table := memsetZero (fun _ => 0), startIndex := 0, voiceIndex := 0, active := false }

/-- The constructor `Parameters()`. -/
def Parameters.new : Parameters K :=
  { grainSize := 441, grainRate := 1323, playbackRate := 1, windowAlpha := 8 / 10 }

/-- The loop of the constructor over the first `n` voices of a pool of default-constructed
grains: `grains[i].voiceIndex = i; grains[i].active = false;`. -/
def initVoices (n : Nat) : Int → Grain K :=
  (List.range n).foldl
    (fun gs (i : Nat) =>
      Function.update gs (i : Int) { gs (i : Int) with voiceIndex := (i : Int), active := false })
    (fun _ => Grain.new)

/-- The constructor `Granulator::Granulator()`. -/
def Granulator.new : Granulator K :=
  { grains := initVoices MAX_GRAIN_VOICES.toNat
    params := Parameters.new
    audioBuffer := none
    audioLength := 0
    globalIndex := 0
    playbackPosition := 0
    voiceCounter := 0
    sampleRate := 44100 }

/-- `void Granulator::setup(float sr, const float* audioData, unsigned long length)`. -/
def setup (sr : K) (audioData : Option (Int → K)) (length : Nat) (e : Granulator K) :
    Granulator K :=
  { e with
    sampleRate := sr
    audioBuffer := audioData
    audioLength := length
    globalIndex := 0
    playbackPosition := 0
    voiceCounter := 0 }

/-! ## Parameter setters -/

/-- `void Granulator::setGrainSize(float value)`. -/
def setGrainSize (value : K) (e : Granulator K) : Granulator K :=
  let minSize : K := (1 / 100) * e.sampleRate
  let maxSize : K := (1 / 10) * e.sampleRate
  let e1 : Granulator K :=
    { e with params := { e.params with grainSize := minSize + value * (maxSize - minSize) } }
  { e1 with params := { e1.params with grainSize := min e1.params.grainSize (MAX_GRAIN_SIZE : K) } }

/-- `void Granulator::setGrainRate(float value)`. -/
def setGrainRate (lib : Libm K) (value : K) (e : Granulator K) : Granulator K :=
  let minRate : K := (2 / 100) * e.sampleRate
  let maxRate : K := (2 / 10) * e.sampleRate
  let e1 : Granulator K :=
    { e with params := { e.params with grainRate := minRate * lib.powf (maxRate / minRate) value } }
  { e1 with params := { e1.params with grainRate := max e1.params.grainRate 1 } }

/-- `void Granulator::setPlaybackRate(float value)`. -/
def setPlaybackRate (value : K) (e : Granulator K) : Granulator K :=
  { e with params := { e.params with playbackRate := value * 2 } }

/-- `void Granulator::setWindowAlpha(float value)`. -/
def setWindowAlpha (value : K) (e : Granulator K) : Granulator K :=
  { e with params := { e.params with windowAlpha := max (1 / 100) (min 1 value) } }

/-! ## Sequences of calls on the public interface -/

/-- The state after `n` consecutive calls of `process`. -/
def processN (lib : Libm K) : Nat → Granulator K → Granulator K
  | 0, e => e
  | n + 1, e => (process lib (processN lib n e)).2

/-- One call made by the host (`render.cpp`) on the engine. -/
inductive Call (K : Type) where
  | process : Call K
  | setGrainSize : K → Call K
  | setGrainRate : K → Call K
  | setPlaybackRate : K → Call K
  | setWindowAlpha : K → Call K
  | setup : K → Option (Int → K) → Nat → Call K

/-- The state after one call. -/
def Call.run (lib : Libm K) : Call K → Granulator K → Granulator K
  | .process, e => (ChronoLoop.process lib e).2
  | .setGrainSize v, e => ChronoLoop.setGrainSize v e
  | .setGrainRate v, e => ChronoLoop.setGrainRate lib v e
  | .setPlaybackRate v, e => ChronoLoop.setPlaybackRate v e
  | .setWindowAlpha v, e => ChronoLoop.setWindowAlpha v e
  | .setup sr buf len, e => ChronoLoop.setup sr buf len e

/-- The state after a sequence of calls, first call first. -/
def runCalls (lib : Libm K) (calls : List (Call K)) (e : Granulator K) : Granulator K :=
  calls.foldl (fun s c => c.run lib s) e

/-! ## Derived notions used to state the properties -/

/-- The phase `currentIndex - grain->startIndex` that `getGrain` computes for voice `i`
at the tick `globalIndex` of the state. -/
def grainPhase (e : Granulator K) (i : Int) : Int :=
  (e.globalIndex : Int) - ((e.grains i).startIndex : Int)

/-- The test of `getGrain` that keeps a voice alive: neither
`grainPhase >= (int)params.grainSize` nor `grainPhase >= MAX_GRAIN_SIZE`. -/
def inGrain (e : Granulator K) (i : Int) : Prop :=
  grainPhase e i < castInt e.params.grainSize ∧ grainPhase e i < MAX_GRAIN_SIZE

instance (e : Granulator K) (i : Int) : Decidable (inGrain e i) := by
  unfold inGrain; infer_instance

/-- Voice `i` as one call of `getGrain` leaves it: deactivated when it was active and
its phase is past the grain. -/
def renderedGrain (e : Granulator K) (i : Int) : Grain K :=
  if (e.grains i).active = true ∧ ¬ inGrain e i then { e.grains i with active := false }
  else e.grains i

/-- The trigger test of `process`: `(globalIndex % (int)params.grainRate) == 0`. -/
def triggers (e : Granulator K) : Prop :=
  remIndex e.globalIndex (castInt e.params.grainRate) = 0

instance (e : Granulator K) : Decidable (triggers e) := by
  unfold triggers; infer_instance

/-- The voice that `makeGrain(globalIndex, &grains[voiceCounter])` writes when called from
`process`, after the playback position has been advanced. -/
def createdGrain (e : Granulator K) : Grain K :=
  { e.grains e.voiceCounter with
    table := copyLoop e (castInt (e.playbackPosition + e.params.playbackRate + 1 / 2))
      (min (castInt e.params.grainSize) MAX_GRAIN_SIZE).toNat (e.grains e.voiceCounter).table
    startIndex := e.globalIndex
    active := true }

/-- The voice left by the loop-wraparound reset of `process`. -/
def clearedGrain (g : Grain K) : Grain K :=
  { g with active := false, startIndex := 0, table := memsetZero g.table }

/-- A call of `process` creates a grain: it passes the buffer guard and the trigger test
holds. -/
def createsGrain (e : Granulator K) : Prop :=
  e.audioBuffer.isSome = true ∧ 0 < e.audioLength ∧ triggers e

instance (e : Granulator K) : Decidable (createsGrain e) := by
  unfold createsGrain; infer_instance

/-- Whether a call is a call of `setup`. -/
def Call.isSetup : Call K → Bool
  | .setup _ _ _ => true
  | _ => false

/-- The control input of a setter call is a normalized value in [0, 1]; no condition on
the other calls. -/
def Call.inUnitRange : Call K → Prop
  | .setGrainSize v => 0 ≤ v ∧ v ≤ 1
  | .setGrainRate v => 0 ≤ v ∧ v ≤ 1
  | .setPlaybackRate v => 0 ≤ v ∧ v ≤ 1
  | .setWindowAlpha v => 0 ≤ v ∧ v ≤ 1
  | _ => True

/-- The number of grains created along a sequence of calls started in state `e`. -/
def triggerCount (lib : Libm K) : List (Call K) → Granulator K → Nat
  | [], _ => 0
  | c :: cs, e =>
    (match c with
      | .process => if createsGrain e then 1 else 0
      | _ => 0) + triggerCount lib cs (c.run lib e)

/-- The specification's `clamp(x, 0, 1)`. -/
def clamp01 (x : K) : K :=
  max 0 (min 1 x)

end Engine

/-! ## Concrete inputs

Rational instances on which the definitions above are run. -/

/-- A rational stand-in for `<cmath>`: a truncated cosine series, a power function that
is exact at integer exponents and interpolates linearly between them, and an
approximation of pi. -/
def libQ : Libm ℚ :=
  { cosf := fun x => 1 - x ^ 2 / 2 + x ^ 4 / 24
    powf := fun b x => b ^ ⌊x⌋ * (1 + (x - (⌊x⌋ : ℚ)) * (b - 1))
    M_PI := 355 / 113 }

/-- A source buffer with the three samples 10, 20, 30. -/
def demoBuffer : Int → ℚ :=
  fun i => if i = 0 then 10 else if i = 1 then 20 else if i = 2 then 30 else 0

/-- A freshly constructed engine bound to `demoBuffer` at 44100 Hz. -/
def demoEngine : Granulator ℚ :=
  setup 44100 (some demoBuffer) 3 Granulator.new

/-- A freshly constructed engine bound to a one-sample buffer: the first step already
moves the playback position to the end of the buffer. -/
def shortEngine : Granulator ℚ :=
  setup 44100 (some demoBuffer) 1 Granulator.new

/-! ## Further notions used to state the properties -/

/-- The sample rate passed to a `setup` call is positive; no condition on the other
calls. -/
def Call.positiveRate {K : Type} [LinearOrderedField K] : Call K → Prop
  | .setup sr _ _ => 0 < sr
  | _ => True

/-- The `<cmath>` parameter is the exact one over the reals: `cosf` is the cosine,
`powf` the real power and `M_PI` the number pi. -/
def RealLibm (lib : Libm ℝ) : Prop :=
  lib.cosf = Real.cos ∧ lib.powf = (fun b x => b ^ x) ∧ lib.M_PI = Real.pi

/-- A call of `process` performs the loop-wraparound reset: it passes the buffer guard
and the advanced playback position reaches the buffer length. -/
def wrapsAround {K : Type} [LinearOrderedField K] (e : Granulator K) : Prop :=
  e.audioBuffer.isSome = true ∧ 0 < e.audioLength ∧
    e.playbackPosition + e.params.playbackRate ≥ (e.audioLength : K)

/-- The pool is well formed: `voiceCounter` is an index of the pool and every active
voice of the pool was started at or before the current tick. -/
def poolWellFormed {K : Type} (e : Granulator K) : Prop :=
  (0 ≤ e.voiceCounter ∧ e.voiceCounter < MAX_GRAIN_VOICES) ∧
    ∀ i : Int, 0 ≤ i → i < MAX_GRAIN_VOICES → (e.grains i).active = true →
      (e.grains i).startIndex ≤ e.globalIndex

/-- Whether a call is one of the four parameter setters. -/
def Call.isSetter {K : Type} : Call K → Bool
  | .process => false
  | .setup _ _ _ => false
  | _ => true

/-- The bookkeeping behind voice reuse, for a trigger interval `R` and a grain length
`n`: since the last reset `T` grains have been created (`T` is `globalIndex / R` rounded
up), the first of them in slot `v0 mod 16`; `voiceCounter` is `(v0 + T) mod 16`; and
every active voice of the pool is the `k`-th of these grains for some `k < T`: it was
started at tick `k * R`, sits in slot `(v0 + k) mod 16`, and is at most `n` ticks old. -/
def reuseInvariant {K : Type} (R : Nat) (n : Int) (e : Granulator K) : Prop :=
  ∃ v0 T : Nat,
    e.voiceCounter = ((v0 + T : Nat) : Int) % 16 ∧
    e.globalIndex ≤ T * R ∧ T * R < e.globalIndex + R ∧
    ∀ i : Int, 0 ≤ i → i < 16 → (e.grains i).active = true →
      ∃ k : Nat, (e.grains i).startIndex = k * R ∧ k < T ∧
        (e.globalIndex : Int) - ((e.grains i).startIndex : Int) ≤ n ∧
        i = ((v0 + k : Nat) : Int) % 16

/-- The calls that lead to `staleEngine`: setup at 50 Hz, `setGrainRate(0)` (one trigger
per tick at this sample rate), `setPlaybackRate(0)`, two steps, and a second setup. -/
def staleCalls : List (Call ℚ) :=
  [Call.setup 50 (some demoBuffer) 3, Call.setGrainRate 0, Call.setPlaybackRate 0,
    Call.process, Call.process, Call.setup 50 (some demoBuffer) 3]

/-- An engine set up a second time while voices are active: voice 1, started at tick 1,
is still active although `globalIndex` is back to 0. -/
def staleEngine : Granulator ℚ :=
  runCalls libQ staleCalls Granulator.new

/-- The smallest value of a 32-bit `int`. -/
def INT_MIN : Int := -2147483648

/-- The largest value of a 32-bit `int`. -/
def INT_MAX : Int := 2147483647

/-- The conversion `(int)x` of a `float` as C++ defines it for a 32-bit `int`: the value
truncated toward zero when that value is an `int`, and no defined result otherwise. -/
def castInt32 {K : Type} [LinearOrderedField K] [FloorRing K] (x : K) : Option Int :=
  if INT_MIN ≤ castInt x ∧ castInt x ≤ INT_MAX then some (castInt x) else none

/-- The engine after setup at 44100 Hz and `setGrainRate(7)`. -/
def hugeRateEngine : Granulator ℚ :=
  runCalls libQ [Call.setup 44100 (some demoBuffer) 3, Call.setGrainRate 7] Granulator.new

/-! # Properties -/

/-! ## Buffer reader -/

theorem wrapUp_nonneg (L : Int) (hL : 0 < L) (position : Int) :
    0 ≤ wrapUp L hL position := by
  induction position using wrapUp.induct L hL with
  | case1 p hp ih => rw [wrapUp, if_pos hp]; exact ih
  | case2 p hp => rw [wrapUp, if_neg hp]; omega

theorem wrapUp_emod (L : Int) (hL : 0 < L) (position : Int) :
    wrapUp L hL position % L = position % L := by
  induction position using wrapUp.induct L hL with
  | case1 p hp ih => rw [wrapUp, if_pos hp, ih, Int.add_emod_self]
  | case2 p hp => rw [wrapUp, if_neg hp]

theorem wrapDown_eq_emod (L : Int) (hL : 0 < L) (position : Int) (hp : 0 ≤ position) :
    wrapDown L hL position = position % L := by
  induction position using wrapDown.induct L hL with
  | case1 p hle ih =>
    rw [wrapDown, if_pos hle, ih (by omega), Int.sub_emod, Int.emod_self, sub_zero,
      Int.emod_emod]
  | case2 p hlt =>
    rw [wrapDown, if_neg hlt, Int.emod_eq_of_lt hp (by omega)]

theorem readAudioSample_some {K : Type} [LinearOrderedField K] (e : Granulator K) (buf : Int → K) (position : Int)
    (hbuf : e.audioBuffer = some buf) (hL : 0 < e.audioLength) :
    readAudioSample e position = buf (position % (e.audioLength : Int)) := by
  have hne : e.audioLength ≠ 0 := Nat.pos_iff_ne_zero.mp hL
  have hLi : (0 : Int) < (e.audioLength : Int) := Int.ofNat_lt.mpr hL
  unfold readAudioSample
  rw [hbuf]
  simp only [dif_neg hne]
  rw [wrapDown_eq_emod _ hLi _ (wrapUp_nonneg _ hLi _), wrapUp_emod]

/-- C1: with a bound buffer of length L > 0, `readAudioSample` (a total function: both
loops terminate) returns, for every integer position, the buffer cell at the
non-negative remainder `position mod L`; in particular `read(-1) = read(L-1)` and
`read(L) = read(0)`. -/
theorem readAudioSample_wraps {K : Type} [LinearOrderedField K] (e : Granulator K)
    (buf : Int → K) (hbuf : e.audioBuffer = some buf) (hL : 0 < e.audioLength) :
    (∀ position : Int,
        0 ≤ position % (e.audioLength : Int) ∧
        position % (e.audioLength : Int) < (e.audioLength : Int) ∧
        readAudioSample e position = buf (position % (e.audioLength : Int))) ∧
      readAudioSample e (-1) = readAudioSample e ((e.audioLength : Int) - 1) ∧
      readAudioSample e (e.audioLength : Int) = readAudioSample e 0 := by
  have hLi : (0 : Int) < (e.audioLength : Int) := Int.ofNat_lt.mpr hL
  refine ⟨fun position => ⟨Int.emod_nonneg _ (ne_of_gt hLi), Int.emod_lt_of_pos _ hLi,
    readAudioSample_some e buf position hbuf hL⟩, ?_, ?_⟩
  · rw [readAudioSample_some e buf _ hbuf hL, readAudioSample_some e buf _ hbuf hL]
    have hsub : (e.audioLength : Int) - 1 = -1 + (e.audioLength : Int) := by ring
    rw [hsub, Int.add_emod_self]
  · rw [readAudioSample_some e buf _ hbuf hL, readAudioSample_some e buf _ hbuf hL,
      Int.emod_self, Int.zero_emod]

/-- Witness of C1 on the three-sample buffer: position -1 reads cell 2, position 3
reads cell 0. -/
theorem readAudioSample_wraps_witness :
    (demoEngine.audioBuffer = some demoBuffer ∧ 0 < demoEngine.audioLength) ∧
      readAudioSample demoEngine (-1) = readAudioSample demoEngine ((3 : Int) - 1) ∧
      readAudioSample demoEngine (3 : Int) = readAudioSample demoEngine 0 :=
  ⟨⟨rfl, by decide⟩, (readAudioSample_wraps demoEngine demoBuffer rfl (by decide)).2⟩

/-! ## Rendering -/

theorem getGrain_fst {K : Type} [LinearOrderedField K] [FloorRing K] (lib : Libm K)
    (e : Granulator K) (i : Int) :
    (getGrain lib e.globalIndex i e).1 =
      if (e.grains i).active = true ∧ inGrain e i then
        (e.grains i).table (grainPhase e i) * getAmplitude lib e (grainPhase e i)
      else 0 := by
  unfold getGrain inGrain grainPhase
  by_cases ha : (e.grains i).active = true
  · simp only [ha, true_and, Bool.true_eq_false, if_false]
    by_cases hx : (e.globalIndex : Int) - ((e.grains i).startIndex : Int) ≥
        castInt e.params.grainSize ∨
        (e.globalIndex : Int) - ((e.grains i).startIndex : Int) ≥ MAX_GRAIN_SIZE
    · rw [if_pos hx, if_neg]
      rintro ⟨h1, h2⟩
      rcases hx with h | h <;> omega
    · rw [if_neg hx, if_pos]
      push_neg at hx
      exact hx
  · have hf : (e.grains i).active = false := by simpa using ha
    simp [hf]

theorem getGrain_snd {K : Type} [LinearOrderedField K] [FloorRing K] (lib : Libm K)
    (e : Granulator K) (i : Int) :
    (getGrain lib e.globalIndex i e).2 =
      { e with grains := Function.update e.grains i (renderedGrain e i) } := by
  unfold getGrain renderedGrain inGrain grainPhase
  by_cases ha : (e.grains i).active = true
  · simp only [ha, true_and, Bool.true_eq_false, if_false]
    by_cases hx : (e.globalIndex : Int) - ((e.grains i).startIndex : Int) ≥
        castInt e.params.grainSize ∨
        (e.globalIndex : Int) - ((e.grains i).startIndex : Int) ≥ MAX_GRAIN_SIZE
    · rw [if_pos hx, if_pos]
      rintro ⟨h1, h2⟩
      rcases hx with h | h <;> omega
    · rw [if_neg hx, if_neg]
      · simp
      · push_neg at hx
        simpa using hx
  · have hf : (e.grains i).active = false := by simpa using ha
    simp [hf]

theorem getGrain_with_grains {K : Type} [LinearOrderedField K] [FloorRing K] (lib : Libm K)
    (e : Granulator K) (G : Int → Grain K) (i : Int) (hG : G i = e.grains i) :
    getGrain lib e.globalIndex i { e with grains := G } =
      ((getGrain lib e.globalIndex i e).1,
        { e with grains := Function.update G i (renderedGrain e i) }) := by
  have h1 := getGrain_fst lib { e with grains := G } i
  have h2 := getGrain_snd lib { e with grains := G } i
  apply Prod.ext
  · rw [getGrain_fst lib e i]
    simpa [grainPhase, inGrain, getAmplitude, hG] using h1
  · simpa [grainPhase, inGrain, renderedGrain, hG] using h2

theorem sumActiveGrains_succ {K : Type} [LinearOrderedField K] [FloorRing K] (lib : Libm K)
    (e : Granulator K) (n : Nat) :
    sumActiveGrains lib (n + 1) e =
      if ((sumActiveGrains lib n e).2.2.grains (n : Int)).active = true then
        ((sumActiveGrains lib n e).1 +
            (getGrain lib (sumActiveGrains lib n e).2.2.globalIndex (n : Int)
              (sumActiveGrains lib n e).2.2).1,
          (sumActiveGrains lib n e).2.1 + 1,
          (getGrain lib (sumActiveGrains lib n e).2.2.globalIndex (n : Int)
              (sumActiveGrains lib n e).2.2).2)
      else sumActiveGrains lib n e := by
  simp only [sumActiveGrains, List.range_succ, List.foldl_append, List.foldl_cons,
    List.foldl_nil]

/-- The render loop in closed form: the sum of the samples `getGrain` returns for the
voices, the number of active voices, and the state with the expired voices
deactivated. -/
theorem sumActiveGrains_eq {K : Type} [LinearOrderedField K] [FloorRing K] (lib : Libm K)
    (e : Granulator K) (n : Nat) :
    sumActiveGrains lib n e =
      (∑ i in Finset.range n, (getGrain lib e.globalIndex (i : Int) e).1,
        (((Finset.range n).filter (fun i : Nat => (e.grains (i : Int)).active = true)).card : Int),
        { e with grains := fun j =>
            if 0 ≤ j ∧ j < (n : Int) then renderedGrain e j else e.grains j }) := by
  induction n with
  | zero =>
    simp only [sumActiveGrains, List.range_zero, List.foldl_nil, Finset.range_zero,
      Finset.sum_empty, Finset.filter_empty, Finset.card_empty, Nat.cast_zero]
    refine Prod.ext rfl (Prod.ext rfl ?_)
    have : (fun j : Int => if 0 ≤ j ∧ j < 0 then renderedGrain e j else e.grains j)
        = e.grains := by
      funext j
      rw [if_neg]
      omega
    simp only [this]
  | succ n ih =>
    rw [sumActiveGrains_succ, ih]
    have hGn : (fun j : Int => if 0 ≤ j ∧ j < (n : Int) then renderedGrain e j
        else e.grains j) (n : Int) = e.grains (n : Int) := by
      simp
    have hupd : Function.update
        (fun j : Int => if 0 ≤ j ∧ j < (n : Int) then renderedGrain e j else e.grains j)
        (n : Int) (renderedGrain e (n : Int))
        = fun j : Int => if 0 ≤ j ∧ j < ((n + 1 : Nat) : Int) then renderedGrain e j
            else e.grains j := by
      funext j
      by_cases hj : j = (n : Int)
      · subst hj
        simp
      · rw [Function.update_noteq hj]
        have : (0 ≤ j ∧ j < ((n + 1 : Nat) : Int)) ↔ (0 ≤ j ∧ j < (n : Int)) := by
          push_cast
          omega
        simp only [this]
    by_cases ha : (e.grains (n : Int)).active = true
    · simp only [hGn, ha, if_true]
      rw [getGrain_with_grains lib e _ (n : Int) hGn, hupd]
      refine Prod.ext ?_ (Prod.ext ?_ rfl)
      · simp only [Finset.sum_range_succ]
      · simp only [Finset.range_succ, Finset.filter_insert, ha, if_true]
        rw [Finset.card_insert_of_not_mem (by simp)]
        push_cast
        rfl
    · have hf : (e.grains (n : Int)).active = false := by simpa using ha
      simp only [hGn, hf, Bool.false_eq_true, if_false]
      refine Prod.ext ?_ (Prod.ext ?_ ?_)
      · simp only [Finset.sum_range_succ, getGrain_fst, hf, Bool.false_eq_true, false_and,
          if_false, add_zero]
      · simp only [Finset.range_succ, Finset.filter_insert, hf, Bool.false_eq_true, if_false]
      · simp only
        rw [← hupd]
        congr 1
        funext j
        by_cases hj : j = (n : Int)
        · subst hj
          simp [renderedGrain, hf]
        · rw [Function.update_noteq hj]

/-! ## Loops in closed form -/

theorem copyLoop_eq {K : Type} [LinearOrderedField K] (e : Granulator K) (playbackPos : Int)
    (n : Nat) (table : Int → K) :
    copyLoop e playbackPos n table =
      fun j => if 0 ≤ j ∧ j < (n : Int) then readAudioSample e (playbackPos + j)
        else table j := by
  induction n with
  | zero =>
    funext j
    simp only [copyLoop, List.range_zero, List.foldl_nil, Nat.cast_zero]
    rw [if_neg]
    omega
  | succ n ih =>
    have hstep : copyLoop e playbackPos (n + 1) table =
        Function.update (copyLoop e playbackPos n table) (n : Int)
          (readAudioSample e (playbackPos + (n : Int))) := by
      simp only [copyLoop, List.range_succ, List.foldl_append, List.foldl_cons,
        List.foldl_nil]
    rw [hstep, ih]
    funext j
    by_cases hj : j = (n : Int)
    · subst hj
      simp
    · rw [Function.update_noteq hj]
      have : (0 ≤ j ∧ j < ((n + 1 : Nat) : Int)) ↔ (0 ≤ j ∧ j < (n : Int)) := by
        push_cast
        omega
      simp only [this]

theorem clearVoices_eq {K : Type} [LinearOrderedField K] (e : Granulator K) (n : Nat) :
    clearVoices n e =
      { e with grains := fun j =>
          if 0 ≤ j ∧ j < (n : Int) then clearedGrain (e.grains j) else e.grains j } := by
  induction n with
  | zero =>
    simp only [clearVoices, List.range_zero, List.foldl_nil, Nat.cast_zero]
    have : (fun j : Int => if 0 ≤ j ∧ j < 0 then clearedGrain (e.grains j) else e.grains j)
        = e.grains := by
      funext j
      rw [if_neg]
      omega
    rw [this]
  | succ n ih =>
    have hstep : clearVoices (n + 1) e =
        { clearVoices n e with
          grains := Function.update (clearVoices n e).grains (n : Int)
            (clearedGrain ((clearVoices n e).grains (n : Int))) } := by
      simp only [clearVoices, List.range_succ, List.foldl_append, List.foldl_cons,
        List.foldl_nil, clearedGrain]
    rw [hstep, ih]
    simp only
    congr 1
    funext j
    by_cases hj : j = (n : Int)
    · subst hj
      simp
    · rw [Function.update_noteq hj]
      have : (0 ≤ j ∧ j < ((n + 1 : Nat) : Int)) ↔ (0 ≤ j ∧ j < (n : Int)) := by
        push_cast
        omega
      simp only [this]

/-! ## The trigger phase -/

theorem remIndex_zero (divisor : Int) : remIndex 0 divisor = 0 := by
  unfold remIndex
  split_ifs
  · exact Int.zero_emod _
  · rfl

theorem remIndex_natCast (index R : Nat) : remIndex index (R : Int) = ((index % R : Nat) : Int) := by
  unfold remIndex
  rw [if_pos (Int.natCast_nonneg R)]
  rfl

theorem readAudioSample_advance {K : Type} [LinearOrderedField K] (e : Granulator K) (x : K)
    (position : Int) :
    readAudioSample { e with playbackPosition := x } position = readAudioSample e position :=
  rfl

theorem advanceAndTrigger_eq {K : Type} [LinearOrderedField K] [FloorRing K]
    (e : Granulator K) :
    advanceAndTrigger e =
      if triggers e then
        { e with
          playbackPosition := e.playbackPosition + e.params.playbackRate
          grains := Function.update e.grains e.voiceCounter (createdGrain e)
          voiceCounter := if e.voiceCounter + 1 ≥ MAX_GRAIN_VOICES then 0
            else e.voiceCounter + 1 }
      else { e with playbackPosition := e.playbackPosition + e.params.playbackRate } := by
  unfold advanceAndTrigger triggers
  by_cases ht : remIndex e.globalIndex (castInt e.params.grainRate) = 0
  · simp only [ht, if_true]
    have hmin : (if castInt e.params.grainSize > MAX_GRAIN_SIZE then MAX_GRAIN_SIZE
        else castInt e.params.grainSize) = min (castInt e.params.grainSize) MAX_GRAIN_SIZE := by
      by_cases h : castInt e.params.grainSize > MAX_GRAIN_SIZE
      · rw [if_pos h, min_eq_right (le_of_lt h)]
      · rw [if_neg h, min_eq_left (not_lt.mp h)]
    by_cases hv : e.voiceCounter + 1 ≥ MAX_GRAIN_VOICES
    · simp [makeGrain, createdGrain, hv, hmin, copyLoop_eq, readAudioSample_advance]
    · simp [makeGrain, createdGrain, hv, hmin, copyLoop_eq, readAudioSample_advance]
  · simp only [ht, if_false]

/-! ## The step as a whole -/

theorem castInt_of_nonneg {K : Type} [LinearOrderedField K] [FloorRing K] (x : K)
    (hx : 0 ≤ x) : castInt x = ⌊x⌋ := by
  unfold castInt
  rw [if_pos hx]

theorem lt_castInt_iff_lt_floor {K : Type} [LinearOrderedField K] [FloorRing K] (x : K)
    (p : Int) (hp : 0 ≤ p) : p < castInt x ↔ p < ⌊x⌋ := by
  by_cases hx : 0 ≤ x
  · rw [castInt_of_nonneg x hx]
  · have hx0 : x ≤ ((0 : Int) : K) := by
      push_cast
      exact le_of_lt (not_le.mp hx)
    have hceil : ⌈x⌉ ≤ 0 := Int.ceil_le.mpr hx0
    have hfloor : ⌊x⌋ ≤ ⌈x⌉ := Int.floor_le_ceil x
    unfold castInt
    rw [if_neg hx]
    constructor <;> intro h <;> omega

/-- The step on a bound, non-empty buffer: the output is one third of the sum of the
samples `getGrain` returns for the 16 voices, and the state is the one left by the
trigger phase, the deactivation of expired voices, and the index advance with the
loop-wraparound reset. -/
theorem process_bound {K : Type} [LinearOrderedField K] [FloorRing K] (lib : Libm K)
    (e : Granulator K) (hbuf : e.audioBuffer.isSome = true) (hL : 0 < e.audioLength) :
    process lib e =
      ((1 / 3) * ∑ i in Finset.range 16,
          (getGrain lib (advanceAndTrigger e).globalIndex (i : Int) (advanceAndTrigger e)).1,
        advanceIndexAndWrap
          { advanceAndTrigger e with
            grains := fun j =>
              if 0 ≤ j ∧ j < 16 then renderedGrain (advanceAndTrigger e) j
              else (advanceAndTrigger e).grains j }) := by
  have hcond : ¬ (e.audioBuffer.isNone = true ∨ e.audioLength = 0) := by
    rintro (h | h)
    · rw [Option.isNone_iff_eq_none] at h
      rw [h] at hbuf
      exact absurd hbuf (by simp)
    · omega
  have h16 : MAX_GRAIN_VOICES.toNat = 16 := rfl
  unfold process
  rw [if_neg hcond]
  simp only [h16, sumActiveGrains_eq]
  refine Prod.ext ?_ ?_
  · simp only
    split_ifs with hc
    · ring
    · have hcard : ((Finset.range 16).filter
          (fun i : Nat => ((advanceAndTrigger e).grains (i : Int)).active = true)).card = 0 := by
        have := Int.natCast_nonneg ((Finset.range 16).filter
          (fun i : Nat => ((advanceAndTrigger e).grains (i : Int)).active = true)).card
        omega
      have hzero : ∑ i in Finset.range 16,
          (getGrain lib (advanceAndTrigger e).globalIndex (i : Int) (advanceAndTrigger e)).1
          = 0 := by
        apply Finset.sum_eq_zero
        intro i hi
        rw [getGrain_fst, if_neg]
        rintro ⟨ha, -⟩
        have hmem : i ∈ (Finset.range 16).filter
            (fun i : Nat => ((advanceAndTrigger e).grains (i : Int)).active = true) :=
          Finset.mem_filter.mpr ⟨hi, ha⟩
        rw [Finset.card_eq_zero.mp hcard] at hmem
        exact absurd hmem (Finset.not_mem_empty i)
      rw [hzero, mul_zero]
  · simp only [Nat.cast_ofNat]

theorem advanceIndexAndWrap_eq {K : Type} [LinearOrderedField K] (e : Granulator K) :
    advanceIndexAndWrap e =
      if e.playbackPosition ≥ (e.audioLength : K) then
        { e with
          playbackPosition := 0
          globalIndex := 0
          grains := fun j =>
            if 0 ≤ j ∧ j < 16 then clearedGrain (e.grains j) else e.grains j }
      else { e with globalIndex := e.globalIndex + 1 } := by
  have h16 : MAX_GRAIN_VOICES.toNat = 16 := rfl
  unfold advanceIndexAndWrap
  simp only [h16, clearVoices_eq, Nat.cast_ofNat]

theorem advanceAndTrigger_globalIndex {K : Type} [LinearOrderedField K] [FloorRing K]
    (e : Granulator K) : (advanceAndTrigger e).globalIndex = e.globalIndex := by
  rw [advanceAndTrigger_eq]
  split_ifs <;> rfl

theorem advanceAndTrigger_params {K : Type} [LinearOrderedField K] [FloorRing K]
    (e : Granulator K) : (advanceAndTrigger e).params = e.params := by
  rw [advanceAndTrigger_eq]
  split_ifs <;> rfl

theorem advanceAndTrigger_audioLength {K : Type} [LinearOrderedField K] [FloorRing K]
    (e : Granulator K) : (advanceAndTrigger e).audioLength = e.audioLength := by
  rw [advanceAndTrigger_eq]
  split_ifs <;> rfl

theorem advanceAndTrigger_playbackPosition {K : Type} [LinearOrderedField K] [FloorRing K]
    (e : Granulator K) :
    (advanceAndTrigger e).playbackPosition = e.playbackPosition + e.params.playbackRate := by
  rw [advanceAndTrigger_eq]
  split_ifs <;> rfl

theorem advanceAndTrigger_grains {K : Type} [LinearOrderedField K] [FloorRing K]
    (e : Granulator K) :
    (advanceAndTrigger e).grains =
      if triggers e then Function.update e.grains e.voiceCounter (createdGrain e)
      else e.grains := by
  rw [advanceAndTrigger_eq]
  split_ifs <;> rfl

theorem advanceAndTrigger_voiceCounter {K : Type} [LinearOrderedField K] [FloorRing K]
    (e : Granulator K) :
    (advanceAndTrigger e).voiceCounter =
      if triggers e then
        (if e.voiceCounter + 1 ≥ MAX_GRAIN_VOICES then 0 else e.voiceCounter + 1)
      else e.voiceCounter := by
  rw [advanceAndTrigger_eq]
  split_ifs <;> rfl

theorem advanceAndTrigger_phase_nonneg {K : Type} [LinearOrderedField K] [FloorRing K]
    (e : Granulator K)
    (hph : ∀ i : Nat, i < 16 → (e.grains (i : Int)).active = true →
      (e.grains (i : Int)).startIndex ≤ e.globalIndex)
    (i : Nat) (hi : i < 16) (ha : ((advanceAndTrigger e).grains (i : Int)).active = true) :
    0 ≤ grainPhase (advanceAndTrigger e) (i : Int) := by
  unfold grainPhase
  rw [advanceAndTrigger_globalIndex]
  rw [advanceAndTrigger_grains] at ha ⊢
  by_cases ht : triggers e
  · simp only [ht, if_true] at ha ⊢
    by_cases hv : (i : Int) = e.voiceCounter
    · rw [hv, Function.update_same]
      simp [createdGrain]
    · rw [Function.update_noteq hv] at ha ⊢
      have := hph i hi ha
      omega
  · simp only [ht, if_false] at ha ⊢
    have := hph i hi ha
    omega

theorem initVoices_eq {K : Type} [LinearOrderedField K] (n : Nat) :
    (initVoices n : Int → Grain K) =
      fun j => if 0 ≤ j ∧ j < (n : Int) then { (Grain.new : Grain K) with voiceIndex := j }
        else Grain.new := by
  induction n with
  | zero =>
    funext j
    simp only [initVoices, List.range_zero, List.foldl_nil, Nat.cast_zero]
    rw [if_neg]
    omega
  | succ n ih =>
    have hstep : (initVoices (n + 1) : Int → Grain K) =
        Function.update (initVoices n) (n : Int)
          { (initVoices n : Int → Grain K) (n : Int) with
            voiceIndex := (n : Int), active := false } := by
      simp only [initVoices, List.range_succ, List.foldl_append, List.foldl_cons,
        List.foldl_nil]
    rw [hstep, ih]
    funext j
    by_cases hj : j = (n : Int)
    · subst hj
      simp [Grain.new]
    · rw [Function.update_noteq hj]
      have : (0 ≤ j ∧ j < ((n + 1 : Nat) : Int)) ↔ (0 ≤ j ∧ j < (n : Int)) := by
        push_cast
        omega
      simp only [this]

theorem new_grains_inactive {K : Type} [LinearOrderedField K] (j : Int) :
    (((Granulator.new : Granulator K).grains) j).active = false := by
  simp only [Granulator.new, initVoices_eq]
  split_ifs <;> rfl

theorem demoEngine_inactive (j : Int) : (demoEngine.grains j).active = false :=
  new_grains_inactive j

/-! ## Grain creation -/

theorem createdGrain_table {K : Type} [LinearOrderedField K] [FloorRing K]
    (e : Granulator K) (i : Int) (h0 : 0 ≤ i)
    (hn : i < min (castInt e.params.grainSize) MAX_GRAIN_SIZE) :
    (createdGrain e).table i =
      readAudioSample e (castInt (e.playbackPosition + e.params.playbackRate + 1 / 2) + i) := by
  simp only [createdGrain, copyLoop_eq]
  rw [if_pos]
  refine ⟨h0, ?_⟩
  rw [Int.toNat_of_nonneg (by omega)]
  exact hn

theorem castInt_add_half_eq_round {K : Type} [LinearOrderedField K] [FloorRing K] (x : K)
    (hx : 0 ≤ x) : castInt (x + 1 / 2) = round x := by
  rw [castInt_of_nonneg _ (by positivity), round_eq]

/-- The trigger phase when the trigger test holds: with
`n = min(floor(grainSize), MAX_GRAIN_SIZE)` and `p = (int)(playbackPosition + 0.5)` taken
at the advanced playback position, `table[i] = read(p + i)` for every `0 <= i < n`,
`startIndex` is the global index of the step and the voice is active; `p` is
`round(playbackPosition)` when the advanced playback position is non-negative. -/
theorem advanceAndTrigger_fills_table {K : Type} [LinearOrderedField K] [FloorRing K]
    (e : Granulator K) (ht : triggers e) :
    (∀ i : Int, 0 ≤ i → i < min ⌊e.params.grainSize⌋ MAX_GRAIN_SIZE →
        ((advanceAndTrigger e).grains e.voiceCounter).table i =
          readAudioSample (advanceAndTrigger e)
            (castInt ((advanceAndTrigger e).playbackPosition + 1 / 2) + i)) ∧
      (0 ≤ (advanceAndTrigger e).playbackPosition →
        castInt ((advanceAndTrigger e).playbackPosition + 1 / 2) =
          round (advanceAndTrigger e).playbackPosition) ∧
      ((advanceAndTrigger e).grains e.voiceCounter).startIndex = e.globalIndex ∧
      ((advanceAndTrigger e).grains e.voiceCounter).active = true := by
  have hg : (advanceAndTrigger e).grains e.voiceCounter = createdGrain e := by
    rw [advanceAndTrigger_grains, if_pos ht, Function.update_same]
  have hread : ∀ q : Int, readAudioSample (advanceAndTrigger e) q = readAudioSample e q := by
    intro q
    rw [advanceAndTrigger_eq]
    split_ifs <;> rfl
  refine ⟨?_, castInt_add_half_eq_round _, ?_, ?_⟩
  · intro i h0 hn
    rw [hg, hread, advanceAndTrigger_playbackPosition]
    apply createdGrain_table e i h0
    have hlt : i < castInt e.params.grainSize :=
      (lt_castInt_iff_lt_floor _ i h0).mpr (lt_of_lt_of_le hn (min_le_left _ _))
    exact lt_min hlt (lt_of_lt_of_le hn (min_le_right _ _))
  · rw [hg]
    rfl
  · rw [hg]
    rfl

theorem floor_441 : ⌊(441 : ℚ)⌋ = 441 := by
  rw [Int.floor_eq_iff]
  constructor <;> norm_num

theorem castInt_441 : castInt (441 : ℚ) = 441 := by
  rw [castInt_of_nonneg _ (by norm_num), floor_441]

/-! ## State left by a step -/

theorem process_unbound {K : Type} [LinearOrderedField K] [FloorRing K] (lib : Libm K)
    (e : Granulator K) (h : e.audioBuffer = none ∨ e.audioLength = 0) :
    process lib e = (0, e) := by
  unfold process
  rw [if_pos]
  rcases h with h | h
  · left
    rw [h]
    rfl
  · right
    exact h

theorem process_snd_bound {K : Type} [LinearOrderedField K] [FloorRing K] (lib : Libm K)
    (e : Granulator K) (hbuf : e.audioBuffer.isSome = true) (hL : 0 < e.audioLength) :
    (process lib e).2 =
      if e.playbackPosition + e.params.playbackRate ≥ (e.audioLength : K) then
        { advanceAndTrigger e with
          playbackPosition := 0
          globalIndex := 0
          grains := fun j =>
            if 0 ≤ j ∧ j < 16 then
              clearedGrain (renderedGrain (advanceAndTrigger e) j)
            else (advanceAndTrigger e).grains j }
      else
        { advanceAndTrigger e with
          globalIndex := e.globalIndex + 1
          grains := fun j =>
            if 0 ≤ j ∧ j < 16 then renderedGrain (advanceAndTrigger e) j
            else (advanceAndTrigger e).grains j } := by
  rw [process_bound lib e hbuf hL, advanceIndexAndWrap_eq]
  simp only [advanceAndTrigger_playbackPosition, advanceAndTrigger_audioLength,
    advanceAndTrigger_globalIndex]
  split_ifs with hw
  · congr 1
  · rfl

/-- C6: with a bound buffer of length L > 0, a step whose advanced playback position
is at least L leaves `globalIndex = 0`, `playbackPosition = 0`, and each of the 16
voices inactive with `startIndex = 0` and a table whose 4410 cells are 0. -/
theorem process_wraparound_reset {K : Type} [LinearOrderedField K] [FloorRing K]
    (lib : Libm K) (e : Granulator K) (hbuf : e.audioBuffer.isSome = true)
    (hL : 0 < e.audioLength)
    (hwrap : e.playbackPosition + e.params.playbackRate ≥ (e.audioLength : K)) :
    (process lib e).2.globalIndex = 0 ∧
      (process lib e).2.playbackPosition = 0 ∧
      ∀ i : Int, 0 ≤ i → i < MAX_GRAIN_VOICES →
        ((process lib e).2.grains i).active = false ∧
        ((process lib e).2.grains i).startIndex = 0 ∧
        ∀ j : Int, 0 ≤ j → j < MAX_GRAIN_SIZE → ((process lib e).2.grains i).table j = 0 := by
  rw [process_snd_bound lib e hbuf hL, if_pos hwrap]
  refine ⟨rfl, rfl, ?_⟩
  intro i h0 h16
  have hi : 0 ≤ i ∧ i < 16 := ⟨h0, h16⟩
  simp only [hi, and_self, if_true, clearedGrain, true_and]
  intro j hj0 hj1
  simp only [memsetZero, hj0, hj1, and_self, if_true]

/-- Witness of C6: the one-sample engine wraps on its first step. -/
theorem process_wraparound_reset_witness :
    (shortEngine.audioBuffer.isSome = true ∧ 0 < shortEngine.audioLength ∧
      shortEngine.playbackPosition + shortEngine.params.playbackRate ≥
        (shortEngine.audioLength : ℚ)) ∧
      (process libQ shortEngine).2.globalIndex = 0 ∧
      (process libQ shortEngine).2.playbackPosition = 0 :=
  have hwrap : shortEngine.playbackPosition + shortEngine.params.playbackRate ≥
      (shortEngine.audioLength : ℚ) := by
    show (0 : ℚ) + 1 ≥ ((1 : Nat) : ℚ)
    norm_num
  ⟨⟨rfl, by decide, hwrap⟩,
    (process_wraparound_reset libQ shortEngine rfl (by decide) hwrap).1,
    (process_wraparound_reset libQ shortEngine rfl (by decide) hwrap).2.1⟩

/-! ## No signal -/

theorem processN_unbound {K : Type} [LinearOrderedField K] [FloorRing K] (lib : Libm K)
    (e : Granulator K) (h : e.audioBuffer = none ∨ e.audioLength = 0) (n : Nat) :
    processN lib n e = e := by
  induction n with
  | zero => rfl
  | succ n ih => rw [processN, ih, process_unbound lib e h]

theorem readAudioSample_unbound {K : Type} [LinearOrderedField K] (e : Granulator K)
    (h : e.audioBuffer = none ∨ e.audioLength = 0) (position : Int) :
    readAudioSample e position = 0 := by
  unfold readAudioSample
  rcases h with h | h
  · rw [h]
  · cases e.audioBuffer with
    | none => rfl
    | some buf => simp only [dif_pos h]

/-- C8: when the source buffer is unset or its length is 0, `process` returns 0 and
leaves the engine state unchanged, so after any number of calls the state is the same
and the next call returns 0 again; `readAudioSample` returns 0 at every position. -/
theorem process_no_signal {K : Type} [LinearOrderedField K] [FloorRing K] (lib : Libm K)
    (e : Granulator K) (h : e.audioBuffer = none ∨ e.audioLength = 0) :
    process lib e = (0, e) ∧
      (∀ n : Nat, processN lib n e = e ∧ (process lib (processN lib n e)).1 = 0) ∧
      ∀ position : Int, readAudioSample e position = 0 := by
  refine ⟨process_unbound lib e h, ?_, readAudioSample_unbound e h⟩
  intro n
  rw [processN_unbound lib e h n, process_unbound lib e h]
  exact ⟨rfl, rfl⟩

/-- Witness of C8: the freshly constructed engine has no buffer. -/
theorem process_no_signal_witness :
    ((Granulator.new : Granulator ℚ).audioBuffer = none ∨
        (Granulator.new : Granulator ℚ).audioLength = 0) ∧
      process libQ (Granulator.new : Granulator ℚ) = (0, Granulator.new) :=
  ⟨Or.inl rfl, (process_no_signal libQ Granulator.new (Or.inl rfl)).1⟩

/-! ## Fields a step leaves alone or advances -/

theorem process_params {K : Type} [LinearOrderedField K] [FloorRing K] (lib : Libm K)
    (e : Granulator K) : (process lib e).2.params = e.params := by
  by_cases h : e.audioBuffer.isSome = true ∧ 0 < e.audioLength
  · rw [process_snd_bound lib e h.1 h.2]
    split_ifs <;> exact advanceAndTrigger_params e
  · rw [process_unbound lib e]
    by_cases hb : e.audioBuffer = none
    · exact Or.inl hb
    · right
      by_contra hl
      exact h ⟨Option.isSome_iff_ne_none.mpr hb, Nat.pos_of_ne_zero hl⟩

theorem unbound_of_not_bound {K : Type} (e : Granulator K)
    (h : ¬ (e.audioBuffer.isSome = true ∧ 0 < e.audioLength)) :
    e.audioBuffer = none ∨ e.audioLength = 0 := by
  by_cases hb : e.audioBuffer = none
  · exact Or.inl hb
  · right
    by_contra hl
    exact h ⟨Option.isSome_iff_ne_none.mpr hb, Nat.pos_of_ne_zero hl⟩

theorem advanceAndTrigger_audioBuffer {K : Type} [LinearOrderedField K] [FloorRing K]
    (e : Granulator K) : (advanceAndTrigger e).audioBuffer = e.audioBuffer := by
  rw [advanceAndTrigger_eq]
  split_ifs <;> rfl

theorem process_audioBuffer {K : Type} [LinearOrderedField K] [FloorRing K] (lib : Libm K)
    (e : Granulator K) : (process lib e).2.audioBuffer = e.audioBuffer := by
  by_cases h : e.audioBuffer.isSome = true ∧ 0 < e.audioLength
  · rw [process_snd_bound lib e h.1 h.2]
    split_ifs <;> exact advanceAndTrigger_audioBuffer e
  · rw [process_unbound lib e (unbound_of_not_bound e h)]

theorem process_audioLength {K : Type} [LinearOrderedField K] [FloorRing K] (lib : Libm K)
    (e : Granulator K) : (process lib e).2.audioLength = e.audioLength := by
  by_cases h : e.audioBuffer.isSome = true ∧ 0 < e.audioLength
  · rw [process_snd_bound lib e h.1 h.2]
    split_ifs <;> exact advanceAndTrigger_audioLength e
  · rw [process_unbound lib e (unbound_of_not_bound e h)]

theorem process_voiceCounter {K : Type} [LinearOrderedField K] [FloorRing K] (lib : Libm K)
    (e : Granulator K) :
    (process lib e).2.voiceCounter =
      if createsGrain e then
        (if e.voiceCounter + 1 ≥ MAX_GRAIN_VOICES then 0 else e.voiceCounter + 1)
      else e.voiceCounter := by
  by_cases h : e.audioBuffer.isSome = true ∧ 0 < e.audioLength
  · have hv : (process lib e).2.voiceCounter = (advanceAndTrigger e).voiceCounter := by
      rw [process_snd_bound lib e h.1 h.2]
      split_ifs <;> rfl
    have hc : createsGrain e ↔ triggers e :=
      ⟨fun hc => hc.2.2, fun ht => ⟨h.1, h.2, ht⟩⟩
    rw [hv, advanceAndTrigger_voiceCounter]
    simp only [hc]
  · rw [process_unbound lib e (unbound_of_not_bound e h), if_neg]
    exact fun hc => h ⟨hc.1, hc.2.1⟩

theorem process_globalIndex {K : Type} [LinearOrderedField K] [FloorRing K] (lib : Libm K)
    (e : Granulator K) (hbuf : e.audioBuffer.isSome = true) (hL : 0 < e.audioLength) :
    (process lib e).2.globalIndex =
      if e.playbackPosition + e.params.playbackRate ≥ (e.audioLength : K) then 0
      else e.globalIndex + 1 := by
  rw [process_snd_bound lib e hbuf hL]
  split_ifs <;> rfl

theorem process_playbackPosition {K : Type} [LinearOrderedField K] [FloorRing K]
    (lib : Libm K) (e : Granulator K) (hbuf : e.audioBuffer.isSome = true)
    (hL : 0 < e.audioLength) :
    (process lib e).2.playbackPosition =
      if e.playbackPosition + e.params.playbackRate ≥ (e.audioLength : K) then 0
      else e.playbackPosition + e.params.playbackRate := by
  rw [process_snd_bound lib e hbuf hL]
  split_ifs
  · rfl
  · exact advanceAndTrigger_playbackPosition e

/-! ## Trigger cadence -/

theorem processN_params {K : Type} [LinearOrderedField K] [FloorRing K] (lib : Libm K)
    (e : Granulator K) (n : Nat) : (processN lib n e).params = e.params := by
  induction n with
  | zero => rfl
  | succ n ih => rw [processN, process_params, ih]

theorem processN_audioBuffer {K : Type} [LinearOrderedField K] [FloorRing K] (lib : Libm K)
    (e : Granulator K) (n : Nat) : (processN lib n e).audioBuffer = e.audioBuffer := by
  induction n with
  | zero => rfl
  | succ n ih => rw [processN, process_audioBuffer, ih]

theorem processN_audioLength {K : Type} [LinearOrderedField K] [FloorRing K] (lib : Libm K)
    (e : Granulator K) (n : Nat) : (processN lib n e).audioLength = e.audioLength := by
  induction n with
  | zero => rfl
  | succ n ih => rw [processN, process_audioLength, ih]

theorem run_voiceCounter {K : Type} [LinearOrderedField K] [FloorRing K] (lib : Libm K)
    (c : Call K) (e : Granulator K) (h0 : 0 ≤ e.voiceCounter)
    (h16 : e.voiceCounter < MAX_GRAIN_VOICES) (hc : c.isSetup = false) :
    (c.run lib e).voiceCounter =
      (e.voiceCounter + ((triggerCount lib [c] e : Nat) : Int)) % 16 := by
  have hM : MAX_GRAIN_VOICES = 16 := rfl
  rw [hM] at h16
  cases c with
  | process =>
    simp only [Call.run, triggerCount, process_voiceCounter, hM]
    by_cases hcr : createsGrain e
    · simp only [hcr, if_true]
      split_ifs <;> omega
    · simp only [hcr, if_false]
      omega
  | setGrainSize v =>
    simp only [Call.run, triggerCount, setGrainSize]
    omega
  | setGrainRate v =>
    simp only [Call.run, triggerCount, setGrainRate]
    omega
  | setPlaybackRate v =>
    simp only [Call.run, triggerCount, setPlaybackRate]
    omega
  | setWindowAlpha v =>
    simp only [Call.run, triggerCount, setWindowAlpha]
    omega
  | setup sr buf len => exact absurd hc (by simp [Call.isSetup])

theorem runCalls_voiceCounter {K : Type} [LinearOrderedField K] [FloorRing K] (lib : Libm K)
    (calls : List (Call K)) (e : Granulator K) (h0 : 0 ≤ e.voiceCounter)
    (h16 : e.voiceCounter < MAX_GRAIN_VOICES)
    (hns : ∀ c ∈ calls, Call.isSetup c = false) :
    (runCalls lib calls e).voiceCounter =
      (e.voiceCounter + ((triggerCount lib calls e : Nat) : Int)) % 16 := by
  have hM : MAX_GRAIN_VOICES = 16 := rfl
  induction calls generalizing e with
  | nil =>
    rw [hM] at h16
    simp only [runCalls, List.foldl_nil, triggerCount]
    omega
  | cons c cs ih =>
    have hc : c.isSetup = false := hns c (List.mem_cons_self c cs)
    have hstep := run_voiceCounter lib c e h0 h16 hc
    have hone : triggerCount lib [c] e + triggerCount lib cs (c.run lib e) =
        triggerCount lib (c :: cs) e := by
      simp only [triggerCount, add_zero]
    have h0n : 0 ≤ (c.run lib e).voiceCounter := by
      rw [hstep]
      omega
    have h16n : (c.run lib e).voiceCounter < MAX_GRAIN_VOICES := by
      rw [hstep, hM]
      omega
    have hrec := ih (c.run lib e) h0n h16n
      (fun d hd => hns d (List.mem_cons_of_mem c hd))
    have hrun : runCalls lib (c :: cs) e = runCalls lib cs (c.run lib e) := rfl
    rw [hrun, hrec, hstep, ← hone]
    push_cast
    omega

/-- C5: from a state whose `voiceCounter` is v0 in [0, 16) (in particular the state at
a loop-wraparound reset, which leaves `voiceCounter` alone), along any sequence of steps
and setter calls the `voiceCounter` stays in [0, 16) and equals `(v0 + t) mod 16` after
t grains have been created; so the next grain, the k-th with k = t + 1, is placed in
slot `(v0 + k - 1) mod 16`.  The 17th trigger uses the slot of the 1st, and 16
consecutive triggers use 16 distinct slots. -/
theorem round_robin_slots {K : Type} [LinearOrderedField K] [FloorRing K] (lib : Libm K)
    (calls : List (Call K)) (e : Granulator K) (h0 : 0 ≤ e.voiceCounter)
    (h16 : e.voiceCounter < MAX_GRAIN_VOICES)
    (hns : ∀ c ∈ calls, Call.isSetup c = false) :
    (0 ≤ (runCalls lib calls e).voiceCounter ∧
        (runCalls lib calls e).voiceCounter < MAX_GRAIN_VOICES) ∧
      (runCalls lib calls e).voiceCounter =
        (e.voiceCounter + ((triggerCount lib calls e : Nat) : Int)) % 16 ∧
      (createsGrain (runCalls lib calls e) →
        (advanceAndTrigger (runCalls lib calls e)).grains
            ((e.voiceCounter + ((triggerCount lib calls e : Nat) : Int)) % 16) =
          createdGrain (runCalls lib calls e)) ∧
      (∀ k : Nat, (e.voiceCounter + ((k + 16 : Nat) : Int)) % 16 =
        (e.voiceCounter + (k : Int)) % 16) ∧
      (∀ j k : Nat, j < 16 → k < 16 →
        (e.voiceCounter + (j : Int)) % 16 = (e.voiceCounter + (k : Int)) % 16 → j = k) := by
  have hM : MAX_GRAIN_VOICES = 16 := rfl
  have hvc := runCalls_voiceCounter lib calls e h0 h16 hns
  refine ⟨⟨?_, ?_⟩, hvc, ?_, ?_, ?_⟩
  · rw [hvc]
    omega
  · rw [hvc, hM]
    omega
  · intro hc
    rw [← hvc, advanceAndTrigger_grains, if_pos hc.2.2, Function.update_same]
  · intro k
    push_cast
    omega
  · intro j k hj hk h
    omega

/-- Witness of C5: two steps of the freshly set up engine; the first one creates a
grain. -/
theorem round_robin_slots_witness :
    (0 ≤ demoEngine.voiceCounter ∧ demoEngine.voiceCounter < MAX_GRAIN_VOICES ∧
      (∀ c ∈ [Call.process, (Call.process : Call ℚ)], Call.isSetup c = false)) ∧
      (runCalls libQ [Call.process, Call.process] demoEngine).voiceCounter =
        (demoEngine.voiceCounter +
          ((triggerCount libQ [Call.process, Call.process] demoEngine : Nat) : Int)) % 16 :=
  ⟨⟨by decide, by decide, by simp [Call.isSetup]⟩,
    (round_robin_slots libQ [Call.process, Call.process] demoEngine (by decide) (by decide)
      (by simp [Call.isSetup])).2.1⟩

/-! ## The playback position stays inside the buffer -/

theorem process_keeps_position {K : Type} [LinearOrderedField K] [FloorRing K]
    (lib : Libm K) (e : Granulator K)
    (hinv : 0 ≤ e.params.playbackRate ∧ 0 ≤ e.playbackPosition ∧
      (0 < e.audioLength → e.playbackPosition < (e.audioLength : K))) :
    0 ≤ (process lib e).2.params.playbackRate ∧ 0 ≤ (process lib e).2.playbackPosition ∧
      (0 < (process lib e).2.audioLength →
        (process lib e).2.playbackPosition < ((process lib e).2.audioLength : K)) := by
  rw [process_params, process_audioLength]
  by_cases h : e.audioBuffer.isSome = true ∧ 0 < e.audioLength
  · rw [process_playbackPosition lib e h.1 h.2]
    have hLK : (0 : K) < (e.audioLength : K) := Nat.cast_pos.mpr h.2
    refine ⟨hinv.1, ?_, ?_⟩
    · split_ifs
      · exact le_rfl
      · exact add_nonneg hinv.2.1 hinv.1
    · intro _
      split_ifs with hw
      · exact hLK
      · exact not_le.mp hw
  · rw [process_unbound lib e (unbound_of_not_bound e h)]
    exact hinv

theorem run_keeps_position {K : Type} [LinearOrderedField K] [FloorRing K] (lib : Libm K)
    (c : Call K) (e : Granulator K) (hc : c.inUnitRange)
    (hinv : 0 ≤ e.params.playbackRate ∧ 0 ≤ e.playbackPosition ∧
      (0 < e.audioLength → e.playbackPosition < (e.audioLength : K))) :
    0 ≤ (c.run lib e).params.playbackRate ∧ 0 ≤ (c.run lib e).playbackPosition ∧
      (0 < (c.run lib e).audioLength →
        (c.run lib e).playbackPosition < ((c.run lib e).audioLength : K)) := by
  cases c with
  | process => exact process_keeps_position lib e hinv
  | setGrainSize v => exact hinv
  | setGrainRate v => exact hinv
  | setPlaybackRate v =>
    refine ⟨?_, hinv.2.1, hinv.2.2⟩
    have hv : 0 ≤ v := hc.1
    show 0 ≤ v * 2
    positivity
  | setWindowAlpha v => exact hinv
  | setup sr buf len =>
    refine ⟨hinv.1, le_rfl, ?_⟩
    intro hlen
    show (0 : K) < (len : K)
    exact Nat.cast_pos.mpr hlen

theorem runCalls_keeps_position {K : Type} [LinearOrderedField K] [FloorRing K]
    (lib : Libm K) (calls : List (Call K)) (e : Granulator K)
    (hcalls : ∀ c ∈ calls, Call.inUnitRange c)
    (hinv : 0 ≤ e.params.playbackRate ∧ 0 ≤ e.playbackPosition ∧
      (0 < e.audioLength → e.playbackPosition < (e.audioLength : K))) :
    0 ≤ (runCalls lib calls e).params.playbackRate ∧
      0 ≤ (runCalls lib calls e).playbackPosition ∧
      (0 < (runCalls lib calls e).audioLength →
        (runCalls lib calls e).playbackPosition < ((runCalls lib calls e).audioLength : K)) := by
  induction calls generalizing e with
  | nil => exact hinv
  | cons c cs ih =>
    exact ih (c.run lib e) (fun d hd => hcalls d (List.mem_cons_of_mem c hd))
      (run_keeps_position lib c e (hcalls c (List.mem_cons_self c cs)) hinv)

theorem run_audioLength {K : Type} [LinearOrderedField K] [FloorRing K] (lib : Libm K)
    (c : Call K) (e : Granulator K) (hc : c.isSetup = false) :
    (c.run lib e).audioLength = e.audioLength := by
  cases c with
  | process => exact process_audioLength lib e
  | setGrainSize v => rfl
  | setGrainRate v => rfl
  | setPlaybackRate v => rfl
  | setWindowAlpha v => rfl
  | setup sr buf len => exact absurd hc (by simp [Call.isSetup])

theorem runCalls_audioLength {K : Type} [LinearOrderedField K] [FloorRing K] (lib : Libm K)
    (calls : List (Call K)) (e : Granulator K)
    (hns : ∀ c ∈ calls, Call.isSetup c = false) :
    (runCalls lib calls e).audioLength = e.audioLength := by
  induction calls generalizing e with
  | nil => rfl
  | cons c cs ih =>
    have hrun : runCalls lib (c :: cs) e = runCalls lib cs (c.run lib e) := rfl
    rw [hrun, ih (c.run lib e) (fun d hd => hns d (List.mem_cons_of_mem c hd)),
      run_audioLength lib c e (hns c (List.mem_cons_self c cs))]

/-- C7: take a freshly constructed engine, any earlier calls with setter inputs in
[0, 1], then `setup` with a buffer length L > 0, then any sequence of steps and setter
calls with inputs in [0, 1]: the playback position p of the state reached satisfies
`0 <= p < L`. -/
theorem playbackPosition_in_buffer {K : Type} [LinearOrderedField K] [FloorRing K]
    (lib : Libm K) (pre post : List (Call K)) (sr : K) (buf : Option (Int → K)) (L : Nat)
    (hL : 0 < L) (hpre : ∀ c ∈ pre, Call.inUnitRange c)
    (hpost : ∀ c ∈ post, Call.inUnitRange c ∧ Call.isSetup c = false) :
    0 ≤ (runCalls lib post (setup sr buf L (runCalls lib pre Granulator.new))).playbackPosition ∧
      (runCalls lib post (setup sr buf L (runCalls lib pre Granulator.new))).playbackPosition
        < (L : K) := by
  have hnew : 0 ≤ (Granulator.new : Granulator K).params.playbackRate ∧
      0 ≤ (Granulator.new : Granulator K).playbackPosition ∧
      (0 < (Granulator.new : Granulator K).audioLength →
        (Granulator.new : Granulator K).playbackPosition <
          ((Granulator.new : Granulator K).audioLength : K)) := by
    refine ⟨?_, le_rfl, ?_⟩
    · show (0 : K) ≤ 1
      exact zero_le_one
    · intro h
      exact absurd h (lt_irrefl 0)
  have h1 := runCalls_keeps_position lib pre Granulator.new hpre hnew
  have h2 : 0 ≤ (setup sr buf L (runCalls lib pre Granulator.new)).params.playbackRate ∧
      0 ≤ (setup sr buf L (runCalls lib pre Granulator.new)).playbackPosition ∧
      (0 < (setup sr buf L (runCalls lib pre Granulator.new)).audioLength →
        (setup sr buf L (runCalls lib pre Granulator.new)).playbackPosition <
          ((setup sr buf L (runCalls lib pre Granulator.new)).audioLength : K)) :=
    run_keeps_position lib (Call.setup sr buf L) _ trivial h1
  have h3 := runCalls_keeps_position lib post _ (fun c hc => (hpost c hc).1) h2
  have hlen : (runCalls lib post (setup sr buf L (runCalls lib pre Granulator.new))).audioLength
      = L := runCalls_audioLength lib post _ (fun c hc => (hpost c hc).2)
  refine ⟨h3.2.1, ?_⟩
  have h4 := h3.2.2
  rw [hlen] at h4
  exact h4 hL

/-- Witness of C7: three steps after `setPlaybackRate(1)` on the three-sample buffer. -/
theorem playbackPosition_in_buffer_witness :
    (0 < 3 ∧ (∀ c ∈ ([] : List (Call ℚ)), Call.inUnitRange c) ∧
      (∀ c ∈ [Call.setPlaybackRate (1 : ℚ), Call.process, Call.process, Call.process],
        Call.inUnitRange c ∧ Call.isSetup c = false)) ∧
      0 ≤ (runCalls libQ [Call.setPlaybackRate 1, Call.process, Call.process, Call.process]
        (setup 44100 (some demoBuffer) 3 (runCalls libQ [] Granulator.new))).playbackPosition ∧
      (runCalls libQ [Call.setPlaybackRate 1, Call.process, Call.process, Call.process]
        (setup 44100 (some demoBuffer) 3 (runCalls libQ [] Granulator.new))).playbackPosition
        < ((3 : Nat) : ℚ) :=
  ⟨⟨by decide, by simp, by simp [Call.inUnitRange, Call.isSetup]⟩,
    playbackPosition_in_buffer libQ [] _ 44100 (some demoBuffer) 3 (by decide) (by simp)
      (by simp [Call.inUnitRange, Call.isSetup])⟩

/-! ## Setup -/

theorem setup_grains {K : Type} [LinearOrderedField K] (sr : K) (buf : Option (Int → K))
    (len : Nat) (e : Granulator K) : (setup sr buf len e).grains = e.grains :=
  rfl

theorem demoEngine_first_step_voice :
    ((process libQ demoEngine).2.grains 0).active = true := by
  have ht : triggers demoEngine := remIndex_zero _
  have hnw : ¬ (demoEngine.playbackPosition + demoEngine.params.playbackRate ≥
      (demoEngine.audioLength : ℚ)) := by
    show ¬ ((0 : ℚ) + 1 ≥ ((3 : Nat) : ℚ))
    norm_num
  have hg : (advanceAndTrigger demoEngine).grains 0 = createdGrain demoEngine := by
    rw [advanceAndTrigger_grains, if_pos ht]
    exact Function.update_same _ _ _
  have hin : inGrain (advanceAndTrigger demoEngine) 0 := by
    unfold inGrain grainPhase
    rw [hg, advanceAndTrigger_globalIndex, advanceAndTrigger_params]
    have hgs : castInt demoEngine.params.grainSize = 441 := castInt_441
    rw [hgs]
    constructor <;> decide
  rw [process_snd_bound libQ demoEngine rfl (by decide), if_neg hnw]
  simp only [le_refl, Int.reduceLT, and_self, if_true, renderedGrain, hin, not_true_eq_false,
    and_false, if_false]
  rw [hg]
  rfl

/-- C9 fails on the code: `setup` resets the three counters but does not touch the voice
pool.  After one step of the freshly set up engine voice 0 is active, and it is still
active after a second `setup`. -/
theorem setup_keeps_active_voice :
    (setup 44100 (some demoBuffer) 3 (process libQ demoEngine).2).globalIndex = 0 ∧
      (setup 44100 (some demoBuffer) 3 (process libQ demoEngine).2).playbackPosition = 0 ∧
      (setup 44100 (some demoBuffer) 3 (process libQ demoEngine).2).voiceCounter = 0 ∧
      ((setup 44100 (some demoBuffer) 3 (process libQ demoEngine).2).grains 0).active = true :=
  ⟨rfl, rfl, rfl, by rw [setup_grains]; exact demoEngine_first_step_voice⟩

/-! ## Parameter setters -/

theorem clamp01_two : clamp01 (2 : ℚ) = 1 := by
  unfold clamp01
  rw [min_eq_left (by norm_num), max_eq_right (by norm_num)]

theorem clamp01_neg_one : clamp01 (-1 : ℚ) = 0 := by
  unfold clamp01
  rw [min_eq_right (by norm_num), max_eq_left (by norm_num)]

theorem libQ_powf_ten_two : libQ.powf 10 2 = 100 := by
  have hf : ⌊(2 : ℚ)⌋ = 2 := by
    rw [Int.floor_eq_iff]
    constructor <;> norm_num
  show (10 : ℚ) ^ ⌊(2 : ℚ)⌋ * (1 + (2 - (⌊(2 : ℚ)⌋ : ℚ)) * (10 - 1)) = 100
  rw [hf]
  norm_num

theorem libQ_powf_ten_one : libQ.powf 10 1 = 10 := by
  have hf : ⌊(1 : ℚ)⌋ = 1 := by
    rw [Int.floor_eq_iff]
    constructor <;> norm_num
  show (10 : ℚ) ^ ⌊(1 : ℚ)⌋ * (1 + (1 - (⌊(1 : ℚ)⌋ : ℚ)) * (10 - 1)) = 10
  rw [hf]
  norm_num

/-- Counterexample to C10 as stated, at sample rate 44100: `setPlaybackRate(2)` stores 4,
not the 2 stored for `clamp(2, 0, 1) = 1`; `setGrainSize(-1)` stores -3528, not the 441
stored for `clamp(-1, 0, 1) = 0`; `setGrainRate(2)` stores 88200, not the 8820 stored
for `clamp(2, 0, 1) = 1`. -/
theorem setters_no_saturation :
    (setPlaybackRate (2 : ℚ) demoEngine).params.playbackRate ≠
        (setPlaybackRate (clamp01 (2 : ℚ)) demoEngine).params.playbackRate ∧
      (setGrainSize (-1 : ℚ) demoEngine).params.grainSize ≠
        (setGrainSize (clamp01 (-1 : ℚ)) demoEngine).params.grainSize ∧
      (setGrainRate libQ (2 : ℚ) demoEngine).params.grainRate ≠
        (setGrainRate libQ (clamp01 (2 : ℚ)) demoEngine).params.grainRate := by
  refine ⟨?_, ?_, ?_⟩
  · rw [clamp01_two]
    show (2 : ℚ) * 2 ≠ 1 * 2
    norm_num
  · rw [clamp01_neg_one]
    show min ((1 / 100 : ℚ) * 44100 + (-1) * ((1 / 10) * 44100 - (1 / 100) * 44100))
        ((MAX_GRAIN_SIZE : Int) : ℚ) ≠
      min ((1 / 100 : ℚ) * 44100 + 0 * ((1 / 10) * 44100 - (1 / 100) * 44100))
        ((MAX_GRAIN_SIZE : Int) : ℚ)
    have hM : ((MAX_GRAIN_SIZE : Int) : ℚ) = 4410 := by
      unfold MAX_GRAIN_SIZE
      norm_num
    rw [hM, min_eq_left (by norm_num), min_eq_left (by norm_num)]
    norm_num
  · rw [clamp01_two]
    show max ((2 / 100 : ℚ) * 44100 * libQ.powf ((2 / 10) * 44100 / ((2 / 100) * 44100)) 2) 1 ≠
      max ((2 / 100 : ℚ) * 44100 * libQ.powf ((2 / 10) * 44100 / ((2 / 100) * 44100)) 1) 1
    have hb : ((2 / 10 : ℚ) * 44100 / ((2 / 100) * 44100)) = 10 := by norm_num
    rw [hb, libQ_powf_ten_two, libQ_powf_ten_one, max_eq_left (by norm_num),
      max_eq_left (by norm_num)]
    norm_num

theorem setWindowAlpha_clamp01 {K : Type} [LinearOrderedField K] (x : K) :
    max (1 / 100 : K) (min 1 (clamp01 x)) = max (1 / 100) (min 1 x) := by
  unfold clamp01
  have h100 : (0 : K) < 1 / 100 := by norm_num
  rcases le_total x 0 with hx | hx
  · have hx1 : x ≤ 1 := le_trans hx zero_le_one
    rw [min_eq_right hx1, max_eq_left hx, min_eq_right zero_le_one,
      max_eq_left (le_of_lt h100), max_eq_left (le_trans hx (le_of_lt h100))]
  · rcases le_total x 1 with h1 | h1
    · rw [min_eq_right h1, max_eq_right hx, min_eq_right h1]
    · rw [min_eq_left h1, max_eq_right zero_le_one, min_self]

/-- C10 (as amended): for every input x, `setWindowAlpha` stores the value it stores for
`clamp(x, 0, 1)`; `setGrainSize` stores `min(0.01 R + x (0.1 R - 0.01 R), MAX_GRAIN_SIZE)`,
capped above only, so that at sample rates R >= 44100 every x >= 1 stores what x = 1
stores; `setGrainRate` stores `max(0.02 R * powf(0.2 R / 0.02 R, x), 1)`, bounded below
only; `setPlaybackRate` stores `2 x`, which lies in [0, 2] when x is in [0, 1]. -/
theorem setters_stored_values {K : Type} [LinearOrderedField K] (lib : Libm K)
    (e : Granulator K) (x : K) :
    (setWindowAlpha x e).params.windowAlpha =
        (setWindowAlpha (clamp01 x) e).params.windowAlpha ∧
      (setGrainSize x e).params.grainSize =
        min ((1 / 100) * e.sampleRate + x * ((1 / 10) * e.sampleRate - (1 / 100) * e.sampleRate))
          (MAX_GRAIN_SIZE : K) ∧
      (setGrainSize x e).params.grainSize ≤ (MAX_GRAIN_SIZE : K) ∧
      (44100 ≤ e.sampleRate → 1 ≤ x →
        (setGrainSize x e).params.grainSize = (setGrainSize (clamp01 x) e).params.grainSize) ∧
      (setGrainRate lib x e).params.grainRate =
        max ((2 / 100) * e.sampleRate *
          lib.powf ((2 / 10) * e.sampleRate / ((2 / 100) * e.sampleRate)) x) 1 ∧
      1 ≤ (setGrainRate lib x e).params.grainRate ∧
      (setPlaybackRate x e).params.playbackRate = 2 * x ∧
      (0 ≤ x → x ≤ 1 →
        0 ≤ (setPlaybackRate x e).params.playbackRate ∧
          (setPlaybackRate x e).params.playbackRate ≤ 2) := by
  refine ⟨?_, rfl, ?_, ?_, rfl, ?_, ?_, ?_⟩
  · show max (1 / 100 : K) (min 1 x) = max (1 / 100 : K) (min 1 (clamp01 x))
    rw [setWindowAlpha_clamp01]
  · exact min_le_right _ _
  · intro hsr hx
    have hM : ((MAX_GRAIN_SIZE : Int) : K) = 4410 := by
      unfold MAX_GRAIN_SIZE
      norm_num
    have hc : clamp01 x = 1 := by
      unfold clamp01
      rw [min_eq_left hx, max_eq_right zero_le_one]
    have hsr0 : 0 ≤ e.sampleRate := le_trans (by norm_num) hsr
    rw [hc]
    show min ((1 / 100) * e.sampleRate + x * ((1 / 10) * e.sampleRate - (1 / 100) * e.sampleRate))
        ((MAX_GRAIN_SIZE : Int) : K) =
      min ((1 / 100) * e.sampleRate + 1 * ((1 / 10) * e.sampleRate - (1 / 100) * e.sampleRate))
        ((MAX_GRAIN_SIZE : Int) : K)
    rw [hM, min_eq_right, min_eq_right]
    · linarith
    · nlinarith
  · exact le_max_right _ _
  · show x * 2 = 2 * x
    ring
  · intro h0 h1
    constructor
    · show 0 ≤ x * 2
      positivity
    · show x * 2 ≤ 2
      linarith

/-- Witness of C10 (as amended) at the input x = 1 and sample rate 44100. -/
theorem setters_stored_values_witness :
    ((0 : ℚ) ≤ 1 ∧ (1 : ℚ) ≤ 1 ∧ (44100 : ℚ) ≤ demoEngine.sampleRate) ∧
      (0 ≤ (setPlaybackRate (1 : ℚ) demoEngine).params.playbackRate ∧
        (setPlaybackRate (1 : ℚ) demoEngine).params.playbackRate ≤ 2) ∧
      (setGrainSize (1 : ℚ) demoEngine).params.grainSize =
        (setGrainSize (clamp01 (1 : ℚ)) demoEngine).params.grainSize :=
  have hsr : (44100 : ℚ) ≤ demoEngine.sampleRate := le_refl (44100 : ℚ)
  ⟨⟨zero_le_one, le_refl 1, hsr⟩,
    (setters_stored_values libQ demoEngine 1).2.2.2.2.2.2.2 zero_le_one (le_refl 1),
    (setters_stored_values libQ demoEngine 1).2.2.2.1 hsr (le_refl 1)⟩

/-! ## Parameter invariants -/

theorem runCalls_invariant {K : Type} [LinearOrderedField K] [FloorRing K] (lib : Libm K)
    (P : Granulator K → Prop) (hstep : ∀ (c : Call K) (e : Granulator K), P e → P (c.run lib e))
    (calls : List (Call K)) (e : Granulator K) (he : P e) : P (runCalls lib calls e) := by
  induction calls generalizing e with
  | nil => exact he
  | cons c cs ih => exact ih (c.run lib e) (hstep c e he)

theorem run_grainSize_le {K : Type} [LinearOrderedField K] [FloorRing K] (lib : Libm K)
    (c : Call K) (e : Granulator K) (he : e.params.grainSize ≤ (MAX_GRAIN_SIZE : K)) :
    (c.run lib e).params.grainSize ≤ (MAX_GRAIN_SIZE : K) := by
  cases c with
  | process =>
    show (process lib e).2.params.grainSize ≤ (MAX_GRAIN_SIZE : K)
    rw [process_params]
    exact he
  | setGrainSize v => exact min_le_right _ _
  | setGrainRate v => exact he
  | setPlaybackRate v => exact he
  | setWindowAlpha v => exact he
  | setup sr buf len => exact he

/-- C11: in every state reached from a freshly constructed engine by any sequence of
`setup`, `process` and setter calls, with arbitrary inputs and any sample rate,
`params.grainSize <= MAX_GRAIN_SIZE = 4410`. -/
theorem grainSize_le_max {K : Type} [LinearOrderedField K] [FloorRing K] (lib : Libm K)
    (calls : List (Call K)) :
    (runCalls lib calls Granulator.new).params.grainSize ≤ (MAX_GRAIN_SIZE : K) ∧
      (MAX_GRAIN_SIZE : K) = 4410 := by
  have hM : ((MAX_GRAIN_SIZE : Int) : K) = 4410 := by
    unfold MAX_GRAIN_SIZE
    norm_num
  refine ⟨?_, hM⟩
  apply runCalls_invariant lib (fun e => e.params.grainSize ≤ (MAX_GRAIN_SIZE : K))
    (fun c e he => run_grainSize_le lib c e he)
  show (441 : K) ≤ ((MAX_GRAIN_SIZE : Int) : K)
  rw [hM]
  norm_num

theorem run_grainRate_ge {K : Type} [LinearOrderedField K] [FloorRing K] (lib : Libm K)
    (c : Call K) (e : Granulator K) (he : 1 ≤ e.params.grainRate) :
    1 ≤ (c.run lib e).params.grainRate := by
  cases c with
  | process =>
    show 1 ≤ (process lib e).2.params.grainRate
    rw [process_params]
    exact he
  | setGrainSize v => exact he
  | setGrainRate v => exact le_max_right _ _
  | setPlaybackRate v => exact he
  | setWindowAlpha v => exact he
  | setup sr buf len => exact he

theorem one_le_castInt {K : Type} [LinearOrderedField K] [FloorRing K] (x : K)
    (hx : 1 ≤ x) : 1 ≤ castInt x ∧ castInt x = ⌊x⌋ := by
  have h0 : (0 : K) ≤ x := le_trans zero_le_one hx
  rw [castInt_of_nonneg x h0]
  refine ⟨?_, rfl⟩
  apply Int.le_floor.mpr
  push_cast
  exact hx

theorem run_sampleRate_pos {K : Type} [LinearOrderedField K] [FloorRing K] (lib : Libm K)
    (c : Call K) (e : Granulator K) (hc : c.positiveRate) (he : 0 < e.sampleRate) :
    0 < (c.run lib e).sampleRate := by
  cases c with
  | process =>
    show 0 < (process lib e).2.sampleRate
    by_cases h : e.audioBuffer.isSome = true ∧ 0 < e.audioLength
    · rw [process_snd_bound lib e h.1 h.2, advanceAndTrigger_eq]
      split_ifs <;> exact he
    · rw [process_unbound lib e (unbound_of_not_bound e h)]
      exact he
  | setGrainSize v => exact he
  | setGrainRate v => exact he
  | setPlaybackRate v => exact he
  | setWindowAlpha v => exact he
  | setup sr buf len => exact hc

theorem runCalls_rate_invariant {K : Type} [LinearOrderedField K] [FloorRing K]
    (lib : Libm K) (calls : List (Call K)) (e : Granulator K)
    (hpos : ∀ c ∈ calls, Call.positiveRate c)
    (he : 0 < e.sampleRate ∧ 1 ≤ e.params.grainRate) :
    0 < (runCalls lib calls e).sampleRate ∧ 1 ≤ (runCalls lib calls e).params.grainRate := by
  induction calls generalizing e with
  | nil => exact he
  | cons c cs ih =>
    exact ih (c.run lib e) (fun d hd => hpos d (List.mem_cons_of_mem c hd))
      ⟨run_sampleRate_pos lib c e (hpos c (List.mem_cons_self c cs)) he.1,
        run_grainRate_ge lib c e he.2⟩

theorem castInt32_of_one_le {K : Type} [LinearOrderedField K] [FloorRing K] (x : K)
    (h1 : 1 ≤ x) (h2 : x < 2147483648) :
    castInt32 x = some ⌊x⌋ ∧ 1 ≤ ⌊x⌋ := by
  have hc := one_le_castInt x h1
  have hlt : ⌊x⌋ < 2147483648 := by
    apply Int.floor_lt.mpr
    push_cast
    exact h2
  have hfl : 1 ≤ ⌊x⌋ := by
    rw [← hc.2]
    exact hc.1
  refine ⟨?_, hfl⟩
  unfold castInt32 INT_MIN INT_MAX
  rw [hc.2, if_pos]
  constructor <;> omega

/-- C12 (as amended): in every state reached from a freshly constructed engine by any
sequence of `setup`, `process` and setter calls, with arbitrary inputs and positive
sample rates, the sample rate is positive and `params.grainRate >= 1`; and whenever
`grainRate < 2^31`, the divisor `(int)params.grainRate` of the trigger test is defined,
equals `floor(grainRate)`, is at least 1 and so is not 0, and the test is the plain
remainder `globalIndex mod floor(grainRate) = 0`. -/
theorem grainRate_ge_one {K : Type} [LinearOrderedField K] [FloorRing K] (lib : Libm K)
    (calls : List (Call K)) (hpos : ∀ c ∈ calls, Call.positiveRate c) :
    0 < (runCalls lib calls Granulator.new).sampleRate ∧
      1 ≤ (runCalls lib calls Granulator.new).params.grainRate ∧
      ((runCalls lib calls Granulator.new).params.grainRate < 2147483648 →
        castInt32 (runCalls lib calls Granulator.new).params.grainRate =
          some ⌊(runCalls lib calls Granulator.new).params.grainRate⌋ ∧
        1 ≤ ⌊(runCalls lib calls Granulator.new).params.grainRate⌋ ∧
        ⌊(runCalls lib calls Granulator.new).params.grainRate⌋ ≠ 0 ∧
        (triggers (runCalls lib calls Granulator.new) ↔
          ((runCalls lib calls Granulator.new).globalIndex : Int) %
            ⌊(runCalls lib calls Granulator.new).params.grainRate⌋ = 0)) := by
  have hnew : 0 < (Granulator.new : Granulator K).sampleRate ∧
      1 ≤ (Granulator.new : Granulator K).params.grainRate := by
    constructor
    · show (0 : K) < 44100
      norm_num
    · show (1 : K) ≤ 1323
      norm_num
  have hinv := runCalls_rate_invariant lib calls Granulator.new hpos hnew
  have h2 := one_le_castInt _ hinv.2
  refine ⟨hinv.1, hinv.2, ?_⟩
  intro hlt
  have h32 := castInt32_of_one_le _ hinv.2 hlt
  refine ⟨h32.1, h32.2, ?_, ?_⟩
  · have := h32.2
    omega
  · unfold triggers remIndex
    rw [if_pos (by have := h2.1; omega), h2.2]

/-- Witness of C12 (as amended): the engine set up at 44100 Hz, whose default
`grainRate` is 1323. -/
theorem grainRate_ge_one_witness :
    ((∀ c ∈ [Call.setup (44100 : ℚ) (some demoBuffer) 3], Call.positiveRate c) ∧
      (runCalls libQ [Call.setup (44100 : ℚ) (some demoBuffer) 3]
        Granulator.new).params.grainRate < 2147483648) ∧
      castInt32 (runCalls libQ [Call.setup (44100 : ℚ) (some demoBuffer) 3]
          Granulator.new).params.grainRate =
        some ⌊(runCalls libQ [Call.setup (44100 : ℚ) (some demoBuffer) 3]
          Granulator.new).params.grainRate⌋ :=
  have hpos : ∀ c ∈ [Call.setup (44100 : ℚ) (some demoBuffer) 3], Call.positiveRate c := by
    intro c hc
    simp only [List.mem_singleton] at hc
    subst hc
    show (0 : ℚ) < 44100
    norm_num
  have hlt : (runCalls libQ [Call.setup (44100 : ℚ) (some demoBuffer) 3]
      Granulator.new).params.grainRate < 2147483648 := by
    show (1323 : ℚ) < 2147483648
    norm_num
  ⟨⟨hpos, hlt⟩, ((grainRate_ge_one libQ _ hpos).2.2 hlt).1⟩

theorem libQ_powf_ten_seven : libQ.powf 10 7 = 10000000 := by
  have hf : ⌊(7 : ℚ)⌋ = 7 := by
    rw [Int.floor_eq_iff]
    constructor <;> norm_num
  show (10 : ℚ) ^ ⌊(7 : ℚ)⌋ * (1 + (7 - (⌊(7 : ℚ)⌋ : ℚ)) * (10 - 1)) = 10000000
  rw [hf]
  norm_num

theorem hugeRateEngine_grainRate : hugeRateEngine.params.grainRate = 8820000000 := by
  show max ((2 / 100 : ℚ) * 44100 * libQ.powf ((2 / 10) * 44100 / ((2 / 100) * 44100)) 7) 1
    = 8820000000
  have hb : ((2 / 10 : ℚ) * 44100 / ((2 / 100) * 44100)) = 10 := by norm_num
  rw [hb, libQ_powf_ten_seven, max_eq_left (by norm_num)]
  norm_num

/-- Counterexample to C12 as stated: after setup at 44100 Hz and `setGrainRate(7)` the
stored `grainRate` is 8820000000, at least 1 but not below `2^31`; the conversion
`(int)params.grainRate` has no defined result, so the divisor of the trigger test is not
`floor(grainRate)`. -/
theorem grainRate_conversion_undefined :
    hugeRateEngine = runCalls libQ
        [Call.setup 44100 (some demoBuffer) 3, Call.setGrainRate 7] Granulator.new ∧
      1 ≤ hugeRateEngine.params.grainRate ∧
      castInt32 hugeRateEngine.params.grainRate = none ∧
      ¬ (castInt32 hugeRateEngine.params.grainRate =
        some ⌊hugeRateEngine.params.grainRate⌋) := by
  have hfl : ⌊(8820000000 : ℚ)⌋ = 8820000000 := by
    rw [Int.floor_eq_iff]
    constructor <;> norm_num
  have hnone : castInt32 hugeRateEngine.params.grainRate = none := by
    rw [hugeRateEngine_grainRate]
    unfold castInt32 INT_MIN INT_MAX
    rw [castInt_of_nonneg _ (by norm_num), hfl, if_neg]
    intro h
    omega
  refine ⟨rfl, ?_, hnone, ?_⟩
  · rw [hugeRateEngine_grainRate]
    norm_num
  · rw [hnone]
    exact fun h => Option.noConfusion h

/-! ## Parameter mapping over the reals -/

theorem setGrainRate_real (lib : Libm ℝ) (hlib : RealLibm lib) (e : Granulator ℝ)
    (hsr : e.sampleRate = 44100) (x : ℝ) :
    (setGrainRate lib x e).params.grainRate = max (882 * (10 : ℝ) ^ x) 1 := by
  show max ((2 / 100) * e.sampleRate *
    lib.powf ((2 / 10) * e.sampleRate / ((2 / 100) * e.sampleRate)) x) 1 = _
  rw [hlib.2.1, hsr]
  norm_num

theorem setGrainSize_real (e : Granulator ℝ) (hsr : e.sampleRate = 44100) (x : ℝ) :
    (setGrainSize x e).params.grainSize = min (441 + x * 3969) 4410 := by
  show min ((1 / 100) * e.sampleRate + x * ((1 / 10) * e.sampleRate - (1 / 100) * e.sampleRate))
    ((MAX_GRAIN_SIZE : Int) : ℝ) = _
  have hM : ((MAX_GRAIN_SIZE : Int) : ℝ) = 4410 := by
    unfold MAX_GRAIN_SIZE
    norm_num
  rw [hM, hsr]
  norm_num

/-- At 44100 Hz with the real power, every input `x <= 6` (in particular every input in
[0, 1]) stores a `grainRate` below `2^31`, where `(int)params.grainRate` is defined. -/
theorem setGrainRate_in_int_range (lib : Libm ℝ) (hlib : RealLibm lib) (e : Granulator ℝ)
    (hsr : e.sampleRate = 44100) (x : ℝ) (hx : x ≤ 6) :
    (setGrainRate lib x e).params.grainRate < 2147483648 := by
  have h6 : (10 : ℝ) ^ (6 : ℝ) = 1000000 := by
    rw [show (6 : ℝ) = ((6 : ℕ) : ℝ) by norm_num, Real.rpow_natCast]
    norm_num
  have hpow : (10 : ℝ) ^ x ≤ 1000000 := by
    rw [← h6]
    exact Real.rpow_le_rpow_of_exponent_le (by norm_num) hx
  rw [setGrainRate_real lib hlib e hsr]
  apply max_lt
  · linarith
  · norm_num

/-- C13: in exact real arithmetic at sample rate 44100, `setGrainRate(0)` stores
`0.02 R = 882` and `setGrainRate(1)` stores `0.2 R = 8820`; `setGrainSize(0)` stores
`0.01 R = 441` and `setGrainSize(1)` stores `min(0.1 R, MAX_GRAIN_SIZE) = 4410`; and on
[0, 1] both stored values are non-decreasing in the input. -/
theorem mapping_boundaries (lib : Libm ℝ) (hlib : RealLibm lib) (e : Granulator ℝ)
    (hsr : e.sampleRate = 44100) :
    (setGrainRate lib 0 e).params.grainRate = 882 ∧
      (setGrainRate lib 1 e).params.grainRate = 8820 ∧
      (setGrainSize 0 e).params.grainSize = 441 ∧
      (setGrainSize 1 e).params.grainSize = 4410 ∧
      (2 / 100 : ℝ) * e.sampleRate = 882 ∧ (2 / 10 : ℝ) * e.sampleRate = 8820 ∧
      (1 / 100 : ℝ) * e.sampleRate = 441 ∧
      min ((1 / 10 : ℝ) * e.sampleRate) (MAX_GRAIN_SIZE : ℝ) = 4410 ∧
      ∀ x y : ℝ, 0 ≤ x → x ≤ y → y ≤ 1 →
        (setGrainRate lib x e).params.grainRate ≤ (setGrainRate lib y e).params.grainRate ∧
        (setGrainSize x e).params.grainSize ≤ (setGrainSize y e).params.grainSize := by
  have hM : ((MAX_GRAIN_SIZE : Int) : ℝ) = 4410 := by
    unfold MAX_GRAIN_SIZE
    norm_num
  refine ⟨?_, ?_, ?_, ?_, ?_, ?_, ?_, ?_, ?_⟩
  · rw [setGrainRate_real lib hlib e hsr, Real.rpow_zero]
    norm_num
  · rw [setGrainRate_real lib hlib e hsr, Real.rpow_one]
    norm_num
  · rw [setGrainSize_real e hsr]
    norm_num
  · rw [setGrainSize_real e hsr]
    norm_num
  · rw [hsr]
    norm_num
  · rw [hsr]
    norm_num
  · rw [hsr]
    norm_num
  · rw [hsr, hM]
    norm_num
  · intro x y _ hxy _
    constructor
    · rw [setGrainRate_real lib hlib e hsr, setGrainRate_real lib hlib e hsr]
      apply max_le_max _ le_rfl
      apply mul_le_mul_of_nonneg_left _ (by norm_num)
      exact Real.rpow_le_rpow_of_exponent_le (by norm_num) hxy
    · rw [setGrainSize_real e hsr, setGrainSize_real e hsr]
      apply min_le_min _ le_rfl
      linarith

/-- Witness of C13: the constructed engine set up at 44100 Hz, with the real cosine,
power and pi. -/
theorem mapping_boundaries_witness :
    (RealLibm { cosf := Real.cos, powf := fun b x => b ^ x, M_PI := Real.pi } ∧
      (setup (44100 : ℝ) none 0 Granulator.new).sampleRate = 44100) ∧
      (setGrainRate { cosf := Real.cos, powf := fun b x => b ^ x, M_PI := Real.pi } 0
        (setup (44100 : ℝ) none 0 Granulator.new)).params.grainRate = 882 :=
  ⟨⟨⟨rfl, rfl, rfl⟩, rfl⟩,
    (mapping_boundaries { cosf := Real.cos, powf := fun b x => b ^ x, M_PI := Real.pi }
      ⟨rfl, rfl, rfl⟩ (setup (44100 : ℝ) none 0 Granulator.new) rfl).1⟩

/-! ## Amplitude envelope -/

theorem getAmplitude_past_end {K : Type} [LinearOrderedField K] (lib : Libm K)
    (e : Granulator K) (phase : Int) (h : e.params.grainSize ≤ (phase : K)) :
    getAmplitude lib e phase = 0 := by
  unfold getAmplitude
  simp only [ge_iff_le, h, if_true]

/-- C14: for an integer grain size n > 0 and alpha in [0.01, 1] (and a cosine with
`cosf(0) = 1`), `getAmplitude(0) = 0`, `getAmplitude(n) = 0`, and `getAmplitude(phase) = 0`
for every phase at or past the grain size. -/
theorem getAmplitude_endpoints {K : Type} [LinearOrderedField K] (lib : Libm K)
    (e : Granulator K) (n : Int) (hcos : lib.cosf 0 = 1) (hn : 0 < n)
    (hgs : e.params.grainSize = (n : K))
    (ha : 1 / 100 ≤ e.params.windowAlpha ∧ e.params.windowAlpha ≤ 1) :
    getAmplitude lib e 0 = 0 ∧ getAmplitude lib e n = 0 ∧
      ∀ phase : Int, n ≤ phase → getAmplitude lib e phase = 0 := by
  have hpast : ∀ phase : Int, n ≤ phase → getAmplitude lib e phase = 0 := by
    intro phase hp
    apply getAmplitude_past_end
    rw [hgs]
    exact_mod_cast hp
  refine ⟨?_, hpast n le_rfl, hpast⟩
  have hgpos : (0 : K) < e.params.grainSize := by
    rw [hgs]
    exact_mod_cast hn
  have hapos : (0 : K) < e.params.windowAlpha := lt_of_lt_of_le (by norm_num) ha.1
  have hfade : (0 : K) < e.params.windowAlpha * e.params.grainSize / 2 := by positivity
  unfold getAmplitude
  simp only [Int.cast_zero, ge_iff_le, not_le.mpr hgpos, if_false, hfade, if_true, mul_zero,
    zero_div, hcos, sub_self]

/-- Witness of C14 over the rationals: grain size 441 and alpha 0.8, the defaults. -/
theorem getAmplitude_endpoints_witness :
    (libQ.cosf 0 = 1 ∧ (0 : Int) < 441 ∧ demoEngine.params.grainSize = ((441 : Int) : ℚ) ∧
      (1 / 100 ≤ demoEngine.params.windowAlpha ∧ demoEngine.params.windowAlpha ≤ 1)) ∧
      getAmplitude libQ demoEngine 0 = 0 ∧ getAmplitude libQ demoEngine 441 = 0 :=
  have hcos : libQ.cosf 0 = 1 := by
    show (1 : ℚ) - 0 ^ 2 / 2 + 0 ^ 4 / 24 = 1
    norm_num
  have hgs : demoEngine.params.grainSize = ((441 : Int) : ℚ) := by
    show (441 : ℚ) = ((441 : Int) : ℚ)
    norm_num
  have ha : (1 / 100 ≤ demoEngine.params.windowAlpha ∧ demoEngine.params.windowAlpha ≤ 1) := by
    show ((1 : ℚ) / 100 ≤ 8 / 10 ∧ (8 : ℚ) / 10 ≤ 1)
    constructor <;> norm_num
  ⟨⟨hcos, by decide, hgs, ha⟩,
    (getAmplitude_endpoints libQ demoEngine 441 hcos (by decide) hgs ha).1,
    (getAmplitude_endpoints libQ demoEngine 441 hcos (by decide) hgs ha).2.1⟩

theorem getAmplitude_real (lib : Libm ℝ) (hlib : RealLibm lib) (e : Granulator ℝ)
    (phase : Int) :
    getAmplitude lib e phase =
      if e.params.grainSize ≤ (phase : ℝ) then 0
      else if (phase : ℝ) < e.params.windowAlpha * e.params.grainSize / 2 then
        1 / 2 * (1 - Real.cos (2 * Real.pi * (phase : ℝ) /
          (e.params.windowAlpha * e.params.grainSize)))
      else if (phase : ℝ) ≤
          e.params.grainSize - e.params.windowAlpha * e.params.grainSize / 2 then 1
      else
        1 / 2 * (1 + Real.cos (2 * Real.pi *
          ((phase : ℝ) - e.params.grainSize + e.params.windowAlpha * e.params.grainSize / 2) /
          (e.params.windowAlpha * e.params.grainSize))) := by
  unfold getAmplitude
  rw [hlib.1, hlib.2.2]

theorem fadeOut_eq_fadeIn (g a x : ℝ) (hag : a * g ≠ 0) :
    Real.cos (2 * Real.pi * (x - g + a * g / 2) / (a * g)) =
      - Real.cos (2 * Real.pi * (g - x) / (a * g)) := by
  have hangle : 2 * Real.pi * (x - g + a * g / 2) / (a * g) =
      Real.pi - 2 * Real.pi * (g - x) / (a * g) := by
    field_simp
    ring
  rw [hangle, Real.cos_pi_sub]

/-- C15: over the reals, for grain size > 0, alpha in [0.01, 1] and every integer phase
`>= 0`, `0 <= getAmplitude(phase) <= 1`; and the amplitude is exactly 1 for every phase
with `alpha*grainSize/2 <= phase <= grainSize - alpha*grainSize/2` and
`phase < grainSize`, a range whose bounds satisfy
`0 < alpha*grainSize/2 <= grainSize - alpha*grainSize/2`. -/
theorem getAmplitude_range (lib : Libm ℝ) (hlib : RealLibm lib) (e : Granulator ℝ)
    (hgs : 0 < e.params.grainSize)
    (ha : 1 / 100 ≤ e.params.windowAlpha ∧ e.params.windowAlpha ≤ 1) :
    (∀ phase : Int, 0 ≤ phase →
        0 ≤ getAmplitude lib e phase ∧ getAmplitude lib e phase ≤ 1) ∧
      (∀ phase : Int,
        e.params.windowAlpha * e.params.grainSize / 2 ≤ (phase : ℝ) →
        (phase : ℝ) ≤ e.params.grainSize - e.params.windowAlpha * e.params.grainSize / 2 →
        (phase : ℝ) < e.params.grainSize →
        getAmplitude lib e phase = 1) ∧
      0 < e.params.windowAlpha * e.params.grainSize / 2 ∧
      e.params.windowAlpha * e.params.grainSize / 2 ≤
        e.params.grainSize - e.params.windowAlpha * e.params.grainSize / 2 := by
  have hapos : (0 : ℝ) < e.params.windowAlpha := lt_of_lt_of_le (by norm_num) ha.1
  refine ⟨?_, ?_, by positivity, by nlinarith [ha.2]⟩
  · intro phase _
    rw [getAmplitude_real lib hlib]
    split_ifs
    · exact ⟨le_rfl, zero_le_one⟩
    · have h1 := Real.cos_le_one (2 * Real.pi * (phase : ℝ) /
        (e.params.windowAlpha * e.params.grainSize))
      have h2 := Real.neg_one_le_cos (2 * Real.pi * (phase : ℝ) /
        (e.params.windowAlpha * e.params.grainSize))
      constructor <;> linarith
    · exact ⟨zero_le_one, le_rfl⟩
    · have h1 := Real.cos_le_one (2 * Real.pi *
        ((phase : ℝ) - e.params.grainSize + e.params.windowAlpha * e.params.grainSize / 2) /
        (e.params.windowAlpha * e.params.grainSize))
      have h2 := Real.neg_one_le_cos (2 * Real.pi *
        ((phase : ℝ) - e.params.grainSize + e.params.windowAlpha * e.params.grainSize / 2) /
        (e.params.windowAlpha * e.params.grainSize))
      constructor <;> linarith
  · intro phase h1 h2 h3
    rw [getAmplitude_real lib hlib, if_neg (not_le.mpr h3), if_neg (not_lt.mpr h1), if_pos h2]

/-- Witness of C15: the constructed engine (grain size 441, alpha 0.8) with the real
cosine and pi. -/
theorem getAmplitude_range_witness :
    (RealLibm { cosf := Real.cos, powf := fun b x => b ^ x, M_PI := Real.pi } ∧
      0 < (Granulator.new : Granulator ℝ).params.grainSize ∧
      (1 / 100 ≤ (Granulator.new : Granulator ℝ).params.windowAlpha ∧
        (Granulator.new : Granulator ℝ).params.windowAlpha ≤ 1)) ∧
      0 ≤ getAmplitude { cosf := Real.cos, powf := fun b x => b ^ x, M_PI := Real.pi }
        (Granulator.new : Granulator ℝ) 100 :=
  have hgs : 0 < (Granulator.new : Granulator ℝ).params.grainSize := by
    show (0 : ℝ) < 441
    norm_num
  have ha : (1 / 100 ≤ (Granulator.new : Granulator ℝ).params.windowAlpha ∧
      (Granulator.new : Granulator ℝ).params.windowAlpha ≤ 1) := by
    show ((1 : ℝ) / 100 ≤ 8 / 10 ∧ (8 : ℝ) / 10 ≤ 1)
    constructor <;> norm_num
  ⟨⟨⟨rfl, rfl, rfl⟩, hgs, ha⟩,
    ((getAmplitude_range { cosf := Real.cos, powf := fun b x => b ^ x, M_PI := Real.pi }
      ⟨rfl, rfl, rfl⟩ Granulator.new hgs ha).1 100 (by decide)).1⟩

/-- C16: over the reals, with alpha = 1 and grain size > 0, for every integer phase with
`0 <= phase < grainSize` the amplitude is the raised cosine
`0.5 * (1 - cos(2 pi phase / grainSize))`, whichever of the three regions of the code
(fade-in, sustain, fade-out) the phase falls in. -/
theorem getAmplitude_hann (lib : Libm ℝ) (hlib : RealLibm lib) (e : Granulator ℝ)
    (hgs : 0 < e.params.grainSize) (ha : e.params.windowAlpha = 1) (phase : Int)
    (h0 : 0 ≤ phase) (hlt : (phase : ℝ) < e.params.grainSize) :
    getAmplitude lib e phase =
      1 / 2 * (1 - Real.cos (2 * Real.pi * (phase : ℝ) / e.params.grainSize)) := by
  have hg : (1 : ℝ) * e.params.grainSize ≠ 0 := by
    rw [one_mul]
    exact ne_of_gt hgs
  have hp0 : (0 : ℝ) ≤ (phase : ℝ) := by exact_mod_cast h0
  rw [getAmplitude_real lib hlib, ha, if_neg (not_le.mpr hlt)]
  split_ifs with h1 h2
  · rw [one_mul]
  · have hmid : (phase : ℝ) = e.params.grainSize / 2 := by
      rw [one_mul] at h1 h2
      linarith
    have hangle : 2 * Real.pi * (phase : ℝ) / e.params.grainSize = Real.pi := by
      rw [hmid]
      field_simp
      ring
    rw [hangle, Real.cos_pi]
    norm_num
  · rw [fadeOut_eq_fadeIn _ _ _ hg]
    have hangle : 2 * Real.pi * (e.params.grainSize - (phase : ℝ)) / (1 * e.params.grainSize) =
        2 * Real.pi - 2 * Real.pi * (phase : ℝ) / e.params.grainSize := by
      field_simp
      ring
    rw [hangle, Real.cos_two_pi_sub]
    ring

/-- Witness of C16: grain size 441 (the default) with alpha set to 1 by
`setWindowAlpha(1)`, at phase 100. -/
theorem getAmplitude_hann_witness :
    (RealLibm { cosf := Real.cos, powf := fun b x => b ^ x, M_PI := Real.pi } ∧
      0 < (setWindowAlpha 1 (Granulator.new : Granulator ℝ)).params.grainSize ∧
      (setWindowAlpha 1 (Granulator.new : Granulator ℝ)).params.windowAlpha = 1 ∧
      (0 : Int) ≤ 100 ∧
      ((100 : Int) : ℝ) < (setWindowAlpha 1 (Granulator.new : Granulator ℝ)).params.grainSize) ∧
      getAmplitude { cosf := Real.cos, powf := fun b x => b ^ x, M_PI := Real.pi }
          (setWindowAlpha 1 (Granulator.new : Granulator ℝ)) 100 =
        1 / 2 * (1 - Real.cos (2 * Real.pi * ((100 : Int) : ℝ) /
          (setWindowAlpha 1 (Granulator.new : Granulator ℝ)).params.grainSize)) :=
  have hgs : 0 < (setWindowAlpha 1 (Granulator.new : Granulator ℝ)).params.grainSize := by
    show (0 : ℝ) < 441
    norm_num
  have ha : (setWindowAlpha 1 (Granulator.new : Granulator ℝ)).params.windowAlpha = 1 := by
    show max (1 / 100 : ℝ) (min 1 1) = 1
    rw [min_self, max_eq_right (by norm_num)]
  have hlt : ((100 : Int) : ℝ) <
      (setWindowAlpha 1 (Granulator.new : Granulator ℝ)).params.grainSize := by
    show ((100 : Int) : ℝ) < 441
    norm_num
  ⟨⟨⟨rfl, rfl, rfl⟩, hgs, ha, by decide, hlt⟩,
    getAmplitude_hann { cosf := Real.cos, powf := fun b x => b ^ x, M_PI := Real.pi }
      ⟨rfl, rfl, rfl⟩ _ hgs ha 100 (by decide) hlt⟩

theorem fadeIn_at_zero (a g x : ℝ) (hx : x = 0) :
    1 / 2 * (1 - Real.cos (2 * Real.pi * x / (a * g))) = 0 := by
  rw [hx, mul_zero, zero_div, Real.cos_zero]
  norm_num

/-- C20: over the reals, for an integer grain size n > 0, alpha in [0.01, 1] and every
integer phase with `0 <= phase <= n`, `getAmplitude(phase) = getAmplitude(n - phase)`. -/
theorem getAmplitude_symmetric (lib : Libm ℝ) (hlib : RealLibm lib) (e : Granulator ℝ)
    (n : Int) (hn : 0 < n) (hgs : e.params.grainSize = (n : ℝ))
    (ha : 1 / 100 ≤ e.params.windowAlpha ∧ e.params.windowAlpha ≤ 1) (phase : Int)
    (h0 : 0 ≤ phase) (hle : phase ≤ n) :
    getAmplitude lib e phase = getAmplitude lib e (n - phase) := by
  have hg : (0 : ℝ) < (n : ℝ) := by exact_mod_cast hn
  have hx0 : (0 : ℝ) ≤ (phase : ℝ) := by exact_mod_cast h0
  have hx1 : (phase : ℝ) ≤ (n : ℝ) := by exact_mod_cast hle
  have hapos : (0 : ℝ) < e.params.windowAlpha := lt_of_lt_of_le (by norm_num) ha.1
  have hf : 0 < e.params.windowAlpha * (n : ℝ) / 2 := by positivity
  have hf2 : e.params.windowAlpha * (n : ℝ) / 2 ≤ (n : ℝ) - e.params.windowAlpha * (n : ℝ) / 2 := by
    nlinarith [ha.2]
  have hag : e.params.windowAlpha * (n : ℝ) ≠ 0 := ne_of_gt (by positivity)
  rw [getAmplitude_real lib hlib, getAmplitude_real lib hlib, hgs]
  push_cast
  split_ifs with c1 c2 c3 c4 c5 c6 c7 c8 c9
  all_goals first
    | rfl
    | (exfalso; linarith)
    | (rw [fadeOut_eq_fadeIn _ _ _ hag]; ring_nf)
    | (rw [fadeIn_at_zero _ _ _ (by linarith)])

/-- Witness of C20: grain size 441 and alpha 0.8 (the defaults), phases 100 and 341. -/
theorem getAmplitude_symmetric_witness :
    (RealLibm { cosf := Real.cos, powf := fun b x => b ^ x, M_PI := Real.pi } ∧
      (0 : Int) < 441 ∧ (Granulator.new : Granulator ℝ).params.grainSize = ((441 : Int) : ℝ) ∧
      (1 / 100 ≤ (Granulator.new : Granulator ℝ).params.windowAlpha ∧
        (Granulator.new : Granulator ℝ).params.windowAlpha ≤ 1) ∧
      (0 : Int) ≤ 100 ∧ (100 : Int) ≤ 441) ∧
      getAmplitude { cosf := Real.cos, powf := fun b x => b ^ x, M_PI := Real.pi }
          (Granulator.new : Granulator ℝ) 100 =
        getAmplitude { cosf := Real.cos, powf := fun b x => b ^ x, M_PI := Real.pi }
          (Granulator.new : Granulator ℝ) (441 - 100) :=
  have hgs : (Granulator.new : Granulator ℝ).params.grainSize = ((441 : Int) : ℝ) := by
    show (441 : ℝ) = ((441 : Int) : ℝ)
    norm_num
  have ha : (1 / 100 ≤ (Granulator.new : Granulator ℝ).params.windowAlpha ∧
      (Granulator.new : Granulator ℝ).params.windowAlpha ≤ 1) := by
    show ((1 : ℝ) / 100 ≤ 8 / 10 ∧ (8 : ℝ) / 10 ≤ 1)
    constructor <;> norm_num
  ⟨⟨⟨rfl, rfl, rfl⟩, by decide, hgs, ha, by decide, by decide⟩,
    getAmplitude_symmetric { cosf := Real.cos, powf := fun b x => b ^ x, M_PI := Real.pi }
      ⟨rfl, rfl, rfl⟩ Granulator.new 441 (by decide) hgs ha 100 (by decide) (by decide)⟩

/-! ## Tables are frozen between creation and reuse -/

theorem renderedGrain_table {K : Type} [LinearOrderedField K] [FloorRing K]
    (e : Granulator K) (i : Int) : (renderedGrain e i).table = (e.grains i).table := by
  unfold renderedGrain
  split_ifs <;> rfl

theorem renderedGrain_startIndex {K : Type} [LinearOrderedField K] [FloorRing K]
    (e : Granulator K) (i : Int) :
    (renderedGrain e i).startIndex = (e.grains i).startIndex := by
  unfold renderedGrain
  split_ifs <;> rfl

theorem getGrain_table {K : Type} [LinearOrderedField K] [FloorRing K] (lib : Libm K)
    (currentIndex : Nat) (i j : Int) (e : Granulator K) :
    ((getGrain lib currentIndex i e).2.grains j).table = (e.grains j).table := by
  unfold getGrain
  simp only
  split_ifs
  · rfl
  · by_cases hj : j = i
    · subst hj
      simp only [Function.update_same]
    · simp only [ne_eq, hj, not_false_eq_true, Function.update_noteq]
  · rfl

theorem process_table_of_no_wrap {K : Type} [LinearOrderedField K] [FloorRing K]
    (lib : Libm K) (e : Granulator K) (i : Int)
    (hc : ¬ (createsGrain e ∧ i = e.voiceCounter)) (hw : ¬ wrapsAround e) :
    ((process lib e).2.grains i).table = (e.grains i).table := by
  by_cases h : e.audioBuffer.isSome = true ∧ 0 < e.audioLength
  · have hnw : ¬ (e.playbackPosition + e.params.playbackRate ≥ (e.audioLength : K)) :=
      fun hge => hw ⟨h.1, h.2, hge⟩
    have hpre : ((advanceAndTrigger e).grains i).table = (e.grains i).table := by
      rw [advanceAndTrigger_grains]
      by_cases ht : triggers e
      · rw [if_pos ht, Function.update_noteq]
        intro hi
        exact hc ⟨⟨h.1, h.2, ht⟩, hi⟩
      · rw [if_neg ht]
    rw [process_snd_bound lib e h.1 h.2, if_neg hnw]
    simp only
    split_ifs
    · rw [renderedGrain_table, hpre]
    · exact hpre
  · rw [process_unbound lib e (unbound_of_not_bound e h)]

/-- C17: the table of voice i after a step differs from its table before the step only
if the step created a grain in slot i or performed the loop-wraparound reset; the
render loop, `getGrain` and the four setters leave every table unchanged. -/
theorem tables_frozen {K : Type} [LinearOrderedField K] [FloorRing K] (lib : Libm K)
    (e : Granulator K) :
    (∀ i : Int, ((process lib e).2.grains i).table ≠ (e.grains i).table →
        (createsGrain e ∧ i = e.voiceCounter) ∨ wrapsAround e) ∧
      (∀ (n : Nat) (i : Int),
        ((sumActiveGrains lib n e).2.2.grains i).table = (e.grains i).table) ∧
      (∀ (currentIndex : Nat) (i j : Int),
        ((getGrain lib currentIndex i e).2.grains j).table = (e.grains j).table) ∧
      (∀ v : K, (setGrainSize v e).grains = e.grains ∧ (setGrainRate lib v e).grains = e.grains ∧
        (setPlaybackRate v e).grains = e.grains ∧ (setWindowAlpha v e).grains = e.grains) := by
  refine ⟨?_, ?_, fun c i j => getGrain_table lib c i j e, fun v => ⟨rfl, rfl, rfl, rfl⟩⟩
  · intro i hne
    by_contra hcon
    push_neg at hcon
    exact hne (process_table_of_no_wrap lib e i (fun h => hcon.1 h.1 h.2) hcon.2)
  · intro n i
    rw [sumActiveGrains_eq]
    simp only
    split_ifs
    · exact renderedGrain_table e i
    · rfl

theorem demoEngine_first_step_table :
    ((process libQ demoEngine).2.grains 0).table 0 = 20 := by
  have ht : triggers demoEngine := remIndex_zero _
  have hnw : ¬ (demoEngine.playbackPosition + demoEngine.params.playbackRate ≥
      (demoEngine.audioLength : ℚ)) := by
    show ¬ ((0 : ℚ) + 1 ≥ ((3 : Nat) : ℚ))
    norm_num
  have hg : (advanceAndTrigger demoEngine).grains 0 = createdGrain demoEngine := by
    rw [advanceAndTrigger_grains, if_pos ht]
    exact Function.update_same _ _ _
  have hpos : castInt (demoEngine.playbackPosition + demoEngine.params.playbackRate + 1 / 2)
      = 1 := by
    show castInt ((0 : ℚ) + 1 + 1 / 2) = 1
    rw [castInt_of_nonneg _ (by norm_num), Int.floor_eq_iff]
    constructor <;> norm_num
  have hgs : castInt demoEngine.params.grainSize = 441 := castInt_441
  rw [process_snd_bound libQ demoEngine rfl (by decide), if_neg hnw]
  simp only [le_refl, Int.reduceLT, and_self, if_true]
  rw [renderedGrain_table, hg,
    createdGrain_table demoEngine 0 le_rfl (by rw [hgs]; decide), hpos,
    readAudioSample_some demoEngine demoBuffer _ rfl (by decide)]
  have hidx : ((1 + 0 : Int) % ((demoEngine.audioLength : Nat) : Int)) = 1 := by decide
  rw [hidx]
  simp [demoBuffer]

/-- Witness of C17: the first step of the freshly set up engine changes the table of
voice 0, the slot in which it creates a grain. -/
theorem tables_frozen_witness :
    ((process libQ demoEngine).2.grains 0).table ≠ (demoEngine.grains 0).table ∧
      ((createsGrain demoEngine ∧ (0 : Int) = demoEngine.voiceCounter) ∨
        wrapsAround demoEngine) :=
  have hne : ((process libQ demoEngine).2.grains 0).table ≠ (demoEngine.grains 0).table := by
    intro h
    have h0 := congrFun h 0
    rw [demoEngine_first_step_table] at h0
    have hz : (demoEngine.grains 0).table 0 = 0 := by
      simp [demoEngine, setup, Granulator.new, initVoices_eq, Grain.new, memsetZero,
        MAX_GRAIN_VOICES, MAX_GRAIN_SIZE]
    rw [hz] at h0
    norm_num at h0
  ⟨hne, (tables_frozen libQ demoEngine).1 0 hne⟩

/-! ## Reads and writes stay inside the table and the pool -/

theorem renderedGrain_active {K : Type} [LinearOrderedField K] [FloorRing K]
    (e : Granulator K) (i : Int) (h : (renderedGrain e i).active = true) :
    (e.grains i).active = true ∧ inGrain e i := by
  unfold renderedGrain at h
  by_cases hc : (e.grains i).active = true ∧ ¬ inGrain e i
  · rw [if_pos hc] at h
    exact absurd h (by simp)
  · rw [if_neg hc] at h
    refine ⟨h, ?_⟩
    by_contra hn
    exact hc ⟨h, hn⟩

theorem advanceAndTrigger_startIndex_le {K : Type} [LinearOrderedField K] [FloorRing K]
    (e : Granulator K) (hwf : poolWellFormed e) (i : Int) (h0 : 0 ≤ i)
    (h16 : i < MAX_GRAIN_VOICES) (ha : ((advanceAndTrigger e).grains i).active = true) :
    ((advanceAndTrigger e).grains i).startIndex ≤ e.globalIndex := by
  rw [advanceAndTrigger_grains] at ha ⊢
  by_cases ht : triggers e
  · simp only [ht, if_true] at ha ⊢
    by_cases hv : i = e.voiceCounter
    · rw [hv, Function.update_same]
      exact le_refl _
    · rw [Function.update_noteq hv] at ha ⊢
      exact hwf.2 i h0 h16 ha
  · simp only [ht, if_false] at ha ⊢
    exact hwf.2 i h0 h16 ha

theorem process_poolWellFormed {K : Type} [LinearOrderedField K] [FloorRing K]
    (lib : Libm K) (e : Granulator K) (hwf : poolWellFormed e) :
    poolWellFormed (process lib e).2 := by
  have hM : MAX_GRAIN_VOICES = 16 := rfl
  constructor
  · rw [process_voiceCounter]
    have h := hwf.1
    rw [hM] at h ⊢
    split_ifs <;> omega
  · by_cases h : e.audioBuffer.isSome = true ∧ 0 < e.audioLength
    · rw [process_snd_bound lib e h.1 h.2]
      intro i h0 h16 ha
      have hi : 0 ≤ i ∧ i < 16 := ⟨h0, by rw [hM] at h16; exact h16⟩
      split_ifs at ha ⊢ with hw
      · simp only [hi, and_self, if_true, clearedGrain] at ha
        exact absurd ha (by simp)
      · simp only [hi, and_self, if_true] at ha ⊢
        rw [renderedGrain_startIndex]
        have hs := advanceAndTrigger_startIndex_le e hwf i h0 h16 (renderedGrain_active _ i ha).1
        omega
    · rw [process_unbound lib e (unbound_of_not_bound e h)]
      exact hwf.2

theorem run_poolWellFormed {K : Type} [LinearOrderedField K] [FloorRing K] (lib : Libm K)
    (c : Call K) (e : Granulator K) (hc : c.isSetup = false) (hwf : poolWellFormed e) :
    poolWellFormed (c.run lib e) := by
  cases c with
  | process => exact process_poolWellFormed lib e hwf
  | setGrainSize v => exact hwf
  | setGrainRate v => exact hwf
  | setPlaybackRate v => exact hwf
  | setWindowAlpha v => exact hwf
  | setup sr buf len => exact absurd hc (by simp [Call.isSetup])

theorem runCalls_poolWellFormed {K : Type} [LinearOrderedField K] [FloorRing K]
    (lib : Libm K) (calls : List (Call K)) (e : Granulator K)
    (hns : ∀ c ∈ calls, Call.isSetup c = false) (hwf : poolWellFormed e) :
    poolWellFormed (runCalls lib calls e) := by
  induction calls generalizing e with
  | nil => exact hwf
  | cons c cs ih =>
    exact ih (c.run lib e) (fun d hd => hns d (List.mem_cons_of_mem c hd))
      (run_poolWellFormed lib c e (hns c (List.mem_cons_self c cs)) hwf)

theorem setup_new_poolWellFormed {K : Type} [LinearOrderedField K] (sr : K)
    (buf : Option (Int → K)) (L : Nat) :
    poolWellFormed (setup sr buf L (Granulator.new : Granulator K)) := by
  have hvc : (0 : Int) < MAX_GRAIN_VOICES := by decide
  refine ⟨⟨le_refl _, hvc⟩, ?_⟩
  intro i _ _ ha
  rw [setup_grains, new_grains_inactive] at ha
  exact absurd ha (by simp)

theorem createdGrain_writes {K : Type} [LinearOrderedField K] [FloorRing K]
    (e : Granulator K) (j : Int)
    (hne : (createdGrain e).table j ≠ (e.grains e.voiceCounter).table j) :
    0 ≤ j ∧ j < MAX_GRAIN_SIZE := by
  simp only [createdGrain, copyLoop_eq] at hne
  by_cases hj : 0 ≤ j ∧ j < ((min (castInt e.params.grainSize) MAX_GRAIN_SIZE).toNat : Int)
  · refine ⟨hj.1, ?_⟩
    have h2 := hj.2
    have hmin : min (castInt e.params.grainSize) MAX_GRAIN_SIZE ≤ MAX_GRAIN_SIZE :=
      min_le_right _ _
    have hM : MAX_GRAIN_SIZE = 4410 := rfl
    rw [hM] at hmin ⊢
    omega
  · rw [if_neg hj] at hne
    exact absurd rfl hne

/-- C18: in every state reached from a freshly constructed engine by one `setup` call
followed by any sequence of steps and setter calls, every active voice of the pool has
`startIndex <= globalIndex` and `voiceCounter` is in [0, 16); so in the next step the
phase `getGrain` computes for an active voice is non-negative and the read
`table[phase]`, made only when the phase passes the test of `getGrain`, has
`0 <= phase < MAX_GRAIN_SIZE`; every cell `makeGrain` writes has an index in
`[0, MAX_GRAIN_SIZE)`. -/
theorem reads_stay_in_table {K : Type} [LinearOrderedField K] [FloorRing K] (lib : Libm K)
    (sr : K) (buf : Option (Int → K)) (L : Nat) (post : List (Call K))
    (hns : ∀ c ∈ post, Call.isSetup c = false) (s : Granulator K)
    (hs : s = runCalls lib post (setup sr buf L Granulator.new)) :
    (∀ i : Int, 0 ≤ i → i < MAX_GRAIN_VOICES → (s.grains i).active = true →
        (s.grains i).startIndex ≤ s.globalIndex) ∧
      (0 ≤ s.voiceCounter ∧ s.voiceCounter < MAX_GRAIN_VOICES) ∧
      (∀ i : Int, 0 ≤ i → i < MAX_GRAIN_VOICES →
        ((advanceAndTrigger s).grains i).active = true →
        0 ≤ grainPhase (advanceAndTrigger s) i ∧
          (inGrain (advanceAndTrigger s) i →
            grainPhase (advanceAndTrigger s) i < MAX_GRAIN_SIZE)) ∧
      (∀ j : Int, (createdGrain s).table j ≠ (s.grains s.voiceCounter).table j →
        0 ≤ j ∧ j < MAX_GRAIN_SIZE) := by
  have hwf : poolWellFormed s := by
    rw [hs]
    exact runCalls_poolWellFormed lib post _ hns (setup_new_poolWellFormed sr buf L)
  refine ⟨hwf.2, hwf.1, ?_, createdGrain_writes s⟩
  intro i h0 h16 ha
  constructor
  · have hle := advanceAndTrigger_startIndex_le s hwf i h0 h16 ha
    unfold grainPhase
    rw [advanceAndTrigger_globalIndex]
    omega
  · intro hin
    exact hin.2

/-- Witness of C18: a step, `setGrainSize(-1)`, and another step after the setup. -/
theorem reads_stay_in_table_witness :
    (∀ c ∈ [Call.process, Call.setGrainSize (-1 : ℚ), Call.process],
        Call.isSetup c = false) ∧
      (0 ≤ (runCalls libQ [Call.process, Call.setGrainSize (-1 : ℚ), Call.process]
          (setup 44100 (some demoBuffer) 3 Granulator.new)).voiceCounter ∧
        (runCalls libQ [Call.process, Call.setGrainSize (-1 : ℚ), Call.process]
          (setup 44100 (some demoBuffer) 3 Granulator.new)).voiceCounter < MAX_GRAIN_VOICES) :=
  ⟨by simp [Call.isSetup],
    (reads_stay_in_table libQ 44100 (some demoBuffer) 3
      [Call.process, Call.setGrainSize (-1 : ℚ), Call.process] (by simp [Call.isSetup])
      _ rfl).2.1⟩

/-! ## Voice reuse never cuts a grain off -/

theorem eq_mul_of_mod_eq_zero (g T R : Nat) (hmod : g % R = 0) (h1 : g ≤ T * R)
    (h2 : T * R < g + R) : g = T * R := by
  obtain ⟨q, hq⟩ := Nat.dvd_of_mod_eq_zero hmod
  subst hq
  have hR : 0 < R := by
    rcases Nat.eq_zero_or_pos R with h | h
    · subst h
      simp at h2
    · exact h
  have hle : q ≤ T := by
    have : q * R ≤ T * R := by rw [Nat.mul_comm q R]; exact h1
    exact Nat.le_of_mul_le_mul_right this hR
  have hlt : T < q + 1 := by
    have : T * R < (q + 1) * R := by
      rw [Nat.add_mul, Nat.one_mul, Nat.mul_comm q R]
      exact h2
    exact Nat.lt_of_mul_lt_mul_right this
  have hTq : T = q := by omega
  rw [hTq, Nat.mul_comm]

theorem triggers_iff_mod {K : Type} [LinearOrderedField K] [FloorRing K] (e : Granulator K)
    (R : Nat) (hRate : castInt e.params.grainRate = (R : Int)) :
    triggers e ↔ e.globalIndex % R = 0 := by
  unfold triggers
  rw [hRate, remIndex_natCast]
  exact Int.natCast_eq_zero

theorem inGrain_iff_lt {K : Type} [LinearOrderedField K] [FloorRing K] (e : Granulator K)
    (i : Int) (n : Int) (hn : min (castInt e.params.grainSize) MAX_GRAIN_SIZE = n) :
    inGrain e i ↔ grainPhase e i < n := by
  unfold inGrain
  rw [← hn, lt_min_iff]

theorem advanceAndTrigger_voiceCounter_range {K : Type} [LinearOrderedField K] [FloorRing K]
    (e : Granulator K) (h0 : 0 ≤ e.voiceCounter) (h16 : e.voiceCounter < 16) :
    0 ≤ (advanceAndTrigger e).voiceCounter ∧ (advanceAndTrigger e).voiceCounter < 16 := by
  have hM : MAX_GRAIN_VOICES = 16 := rfl
  rw [advanceAndTrigger_voiceCounter, hM]
  split_ifs <;> omega

theorem process_reuseInvariant {K : Type} [LinearOrderedField K] [FloorRing K] (lib : Libm K)
    (e : Granulator K) (R : Nat) (n : Int) (hbuf : e.audioBuffer.isSome = true)
    (hL : 0 < e.audioLength) (hR : 1 ≤ R)
    (hRate : castInt e.params.grainRate = (R : Int))
    (hn : min (castInt e.params.grainSize) MAX_GRAIN_SIZE = n)
    (hinv : reuseInvariant R n e) : reuseInvariant R n (process lib e).2 := by
  have hM : MAX_GRAIN_VOICES = 16 := rfl
  obtain ⟨v0, T, hvc, hT1, hT2, hv⟩ := hinv
  have hn1 : min (castInt (advanceAndTrigger e).params.grainSize) MAX_GRAIN_SIZE = n := by
    rw [advanceAndTrigger_params]
    exact hn
  have hphase : ∀ i : Int, grainPhase (advanceAndTrigger e) i =
      (e.globalIndex : Int) - (((advanceAndTrigger e).grains i).startIndex : Int) := by
    intro i
    unfold grainPhase
    rw [advanceAndTrigger_globalIndex]
  have hvcr := advanceAndTrigger_voiceCounter_range e (by omega) (by omega)
  rw [process_snd_bound lib e hbuf hL]
  by_cases hw : e.playbackPosition + e.params.playbackRate ≥ (e.audioLength : K)
  · rw [if_pos hw]
    refine ⟨(advanceAndTrigger e).voiceCounter.toNat, 0, ?_, ?_, ?_, ?_⟩
    · show (advanceAndTrigger e).voiceCounter =
        (((advanceAndTrigger e).voiceCounter.toNat + 0 : Nat) : Int) % 16
      omega
    · show 0 ≤ 0 * R
      omega
    · show 0 * R < 0 + R
      omega
    · intro i h0 h16 ha
      have hi : 0 ≤ i ∧ i < 16 := ⟨h0, h16⟩
      simp only [hi, and_self, if_true, clearedGrain] at ha
      exact absurd ha (by simp)
  · rw [if_neg hw]
    have hold : ∀ i : Int, 0 ≤ i → i < 16 → i ≠ e.voiceCounter ∨ ¬ triggers e →
        ((advanceAndTrigger e).grains i).active = true → inGrain (advanceAndTrigger e) i →
        ∃ k : Nat, ((advanceAndTrigger e).grains i).startIndex = k * R ∧ k < T ∧
          ((e.globalIndex + 1 : Nat) : Int) -
            (((advanceAndTrigger e).grains i).startIndex : Int) ≤ n ∧
          i = ((v0 + k : Nat) : Int) % 16 := by
      intro i h0 h16 hcase hact hin
      have hin2 := (inGrain_iff_lt _ i n hn1).mp hin
      rw [hphase] at hin2
      have hg1 : (advanceAndTrigger e).grains i = e.grains i := by
        rw [advanceAndTrigger_grains]
        rcases hcase with hne | hnt
        · split_ifs
          · exact Function.update_noteq hne _ _
          · rfl
        · rw [if_neg hnt]
      rw [hg1] at hact hin2 ⊢
      obtain ⟨k, hk1, hk2, _, hk4⟩ := hv i h0 h16 hact
      refine ⟨k, hk1, hk2, ?_, hk4⟩
      push_cast
      omega
    by_cases ht : triggers e
    · have hmod := (triggers_iff_mod e R hRate).mp ht
      have hg : e.globalIndex = T * R := eq_mul_of_mod_eq_zero _ _ _ hmod hT1 hT2
      have hsucc : (T + 1) * R = T * R + R := by rw [Nat.add_mul, Nat.one_mul]
      refine ⟨v0, T + 1, ?_, ?_, ?_, ?_⟩
      · show (advanceAndTrigger e).voiceCounter = ((v0 + (T + 1) : Nat) : Int) % 16
        rw [advanceAndTrigger_voiceCounter, if_pos ht, hM]
        split_ifs <;> omega
      · show e.globalIndex + 1 ≤ (T + 1) * R
        rw [hsucc]
        omega
      · show (T + 1) * R < e.globalIndex + 1 + R
        rw [hsucc]
        omega
      · intro i h0 h16 ha
        have hi : 0 ≤ i ∧ i < 16 := ⟨h0, h16⟩
        simp only [hi, and_self, if_true] at ha ⊢
        obtain ⟨hact, hin⟩ := renderedGrain_active _ i ha
        rw [renderedGrain_startIndex]
        by_cases hiv : i = e.voiceCounter
        · have hg1 : (advanceAndTrigger e).grains i = createdGrain e := by
            rw [advanceAndTrigger_grains, if_pos ht, hiv, Function.update_same]
          have hin2 := (inGrain_iff_lt _ i n hn1).mp hin
          rw [hphase, hg1] at hin2
          have hstart : (createdGrain e).startIndex = e.globalIndex := rfl
          rw [hstart] at hin2
          rw [hg1, hstart]
          refine ⟨T, hg, Nat.lt_succ_self T, ?_, ?_⟩
          · push_cast
            omega
          · rw [hiv, hvc]
        · obtain ⟨k, hk1, hk2, hk3, hk4⟩ := hold i h0 h16 (Or.inl hiv) hact hin
          exact ⟨k, hk1, Nat.lt_succ_of_lt hk2, hk3, hk4⟩
    · have hmod : e.globalIndex % R ≠ 0 := fun h => ht ((triggers_iff_mod e R hRate).mpr h)
      have hne : e.globalIndex ≠ T * R := by
        intro h
        apply hmod
        rw [h, Nat.mul_mod_left]
      refine ⟨v0, T, ?_, ?_, ?_, ?_⟩
      · show (advanceAndTrigger e).voiceCounter = ((v0 + T : Nat) : Int) % 16
        rw [advanceAndTrigger_voiceCounter, if_neg ht]
        exact hvc
      · show e.globalIndex + 1 ≤ T * R
        omega
      · show T * R < e.globalIndex + 1 + R
        omega
      · intro i h0 h16 ha
        have hi : 0 ≤ i ∧ i < 16 := ⟨h0, h16⟩
        simp only [hi, and_self, if_true] at ha ⊢
        obtain ⟨hact, hin⟩ := renderedGrain_active _ i ha
        rw [renderedGrain_startIndex]
        exact hold i h0 h16 (Or.inr ht) hact hin

theorem reuseInvariant_slot_free {K : Type} [LinearOrderedField K] [FloorRing K]
    (e : Granulator K) (R : Nat) (n : Int)
    (hRate : castInt e.params.grainRate = (R : Int)) (hbound : n < 16 * (R : Int))
    (hinv : reuseInvariant R n e) (ht : triggers e) :
    (e.grains e.voiceCounter).active = false := by
  obtain ⟨v0, T, hvc, hT1, hT2, hv⟩ := hinv
  by_contra hact
  have hact1 : (e.grains e.voiceCounter).active = true := by simpa using hact
  obtain ⟨k, hk1, hk2, hk3, hk4⟩ := hv e.voiceCounter (by omega) (by omega) hact1
  have hg : e.globalIndex = T * R :=
    eq_mul_of_mod_eq_zero _ _ _ ((triggers_iff_mod e R hRate).mp ht) hT1 hT2
  have hT : k + 16 ≤ T := by omega
  have hmul : (k + 16) * R ≤ T * R := Nat.mul_le_mul_right R hT
  have hexp : (k + 16) * R = k * R + 16 * R := Nat.add_mul k 16 R
  rw [hk1, hg] at hk3
  have hcast : ((T * R : Nat) : Int) - ((k * R : Nat) : Int) ≥ 16 * (R : Int) := by
    have h1 : k * R + 16 * R ≤ T * R := by omega
    have h2 : ((k * R + 16 * R : Nat) : Int) ≤ ((T * R : Nat) : Int) := Int.ofNat_le.mpr h1
    push_cast at h2 ⊢
    linarith
  linarith

theorem processN_reuseInvariant {K : Type} [LinearOrderedField K] [FloorRing K]
    (lib : Libm K) (e : Granulator K) (R : Nat) (n : Int)
    (hbuf : e.audioBuffer.isSome = true) (hL : 0 < e.audioLength) (hR : 1 ≤ R)
    (hRate : castInt e.params.grainRate = (R : Int))
    (hn : min (castInt e.params.grainSize) MAX_GRAIN_SIZE = n)
    (hinv : reuseInvariant R n e) (m : Nat) : reuseInvariant R n (processN lib m e) := by
  induction m with
  | zero => exact hinv
  | succ m ih =>
    rw [processN]
    apply process_reuseInvariant lib _ R n _ _ hR _ _ ih
    · rw [processN_audioBuffer]
      exact hbuf
    · rw [processN_audioLength]
      exact hL
    · rw [processN_params]
      exact hRate
    · rw [processN_params]
      exact hn

theorem run_setter_state {K : Type} [LinearOrderedField K] [FloorRing K] (lib : Libm K)
    (c : Call K) (e : Granulator K) (hc : c.isSetter = true) :
    (c.run lib e).grains = e.grains ∧ (c.run lib e).globalIndex = e.globalIndex ∧
      (c.run lib e).voiceCounter = e.voiceCounter ∧
      (c.run lib e).audioBuffer = e.audioBuffer ∧
      (c.run lib e).audioLength = e.audioLength := by
  cases c with
  | process => exact absurd hc (by simp [Call.isSetter])
  | setGrainSize v => exact ⟨rfl, rfl, rfl, rfl, rfl⟩
  | setGrainRate v => exact ⟨rfl, rfl, rfl, rfl, rfl⟩
  | setPlaybackRate v => exact ⟨rfl, rfl, rfl, rfl, rfl⟩
  | setWindowAlpha v => exact ⟨rfl, rfl, rfl, rfl, rfl⟩
  | setup sr buf len => exact absurd hc (by simp [Call.isSetter])

theorem runCalls_setters_state {K : Type} [LinearOrderedField K] [FloorRing K]
    (lib : Libm K) (calls : List (Call K)) (e : Granulator K)
    (hsets : ∀ c ∈ calls, Call.isSetter c = true) :
    (runCalls lib calls e).grains = e.grains ∧
      (runCalls lib calls e).globalIndex = e.globalIndex ∧
      (runCalls lib calls e).voiceCounter = e.voiceCounter ∧
      (runCalls lib calls e).audioBuffer = e.audioBuffer ∧
      (runCalls lib calls e).audioLength = e.audioLength := by
  induction calls generalizing e with
  | nil => exact ⟨rfl, rfl, rfl, rfl, rfl⟩
  | cons c cs ih =>
    have h1 := run_setter_state lib c e (hsets c (List.mem_cons_self c cs))
    have h2 := ih (c.run lib e) (fun d hd => hsets d (List.mem_cons_of_mem c hd))
    have hrun : runCalls lib (c :: cs) e = runCalls lib cs (c.run lib e) := rfl
    rw [hrun]
    exact ⟨h2.1.trans h1.1, h2.2.1.trans h1.2.1, h2.2.2.1.trans h1.2.2.1,
      h2.2.2.2.1.trans h1.2.2.2.1, h2.2.2.2.2.trans h1.2.2.2.2⟩

theorem reuse_bound_of_floor {K : Type} [LinearOrderedField K] [FloorRing K]
    (rate size : K) (hrate : 1 ≤ rate)
    (hpar : 16 * ⌊rate⌋ > min ⌊size⌋ MAX_GRAIN_SIZE) :
    min (castInt size) MAX_GRAIN_SIZE < 16 * castInt rate := by
  have hr := one_le_castInt rate hrate
  rw [hr.2]
  by_cases hs : 0 ≤ size
  · rw [castInt_of_nonneg size hs]
    exact hpar
  · have hs0 : size ≤ ((0 : Int) : K) := by
      push_cast
      exact le_of_lt (not_le.mp hs)
    have hceil : ⌈size⌉ ≤ 0 := Int.ceil_le.mpr hs0
    have hc : castInt size = ⌈size⌉ := by
      unfold castInt
      rw [if_neg hs]
    have hmin : min (castInt size) MAX_GRAIN_SIZE ≤ castInt size := min_le_left _ _
    have h1 := hr.1
    rw [hr.2] at h1
    rw [hc] at hmin
    omega

/-- C19: take a freshly constructed engine, `setup` with a non-empty buffer, then any
setter calls, and from then on only steps (parameters held fixed).  If the parameters
satisfy `16 * floor(grainRate) > min(floor(grainSize), MAX_GRAIN_SIZE)`, then whenever a
step creates a grain, the slot `grains[voiceCounter]` it writes was inactive immediately
before that step. -/
theorem no_grain_cut_off {K : Type} [LinearOrderedField K] [FloorRing K] (lib : Libm K)
    (sr : K) (b : Int → K) (L : Nat) (hL : 0 < L) (sets : List (Call K))
    (hsets : ∀ c ∈ sets, Call.isSetter c = true) (s0 : Granulator K)
    (hs0 : s0 = runCalls lib sets (setup sr (some b) L Granulator.new))
    (hpar : 16 * ⌊s0.params.grainRate⌋ > min ⌊s0.params.grainSize⌋ MAX_GRAIN_SIZE)
    (m : Nat) (hc : createsGrain (processN lib m s0)) :
    ((processN lib m s0).grains (processN lib m s0).voiceCounter).active = false := by
  have hst := runCalls_setters_state lib sets (setup sr (some b) L Granulator.new) hsets
  rw [← hs0] at hst
  have hrate : 1 ≤ s0.params.grainRate := by
    rw [hs0]
    apply runCalls_invariant lib (fun e => 1 ≤ e.params.grainRate)
      (fun c e he => run_grainRate_ge lib c e he)
    show (1 : K) ≤ 1323
    norm_num
  have hr := one_le_castInt _ hrate
  have hbound := reuse_bound_of_floor _ _ hrate hpar
  have hRcast : castInt s0.params.grainRate =
      (((castInt s0.params.grainRate).toNat : Nat) : Int) := by
    have := hr.1
    omega
  have hR1 : 1 ≤ (castInt s0.params.grainRate).toNat := by
    have := hr.1
    omega
  have hbuf : s0.audioBuffer.isSome = true := by
    rw [hst.2.2.2.1]
    rfl
  have hlen : 0 < s0.audioLength := by
    rw [hst.2.2.2.2]
    exact hL
  have hinit : reuseInvariant (castInt s0.params.grainRate).toNat
      (min (castInt s0.params.grainSize) MAX_GRAIN_SIZE) s0 := by
    refine ⟨0, 0, ?_, ?_, ?_, ?_⟩
    · rw [hst.2.2.1]
      rfl
    · rw [hst.2.1]
      exact Nat.zero_le _
    · rw [hst.2.1]
      show 0 * (castInt s0.params.grainRate).toNat < 0 + (castInt s0.params.grainRate).toNat
      omega
    · intro i _ _ ha
      rw [hst.1, setup_grains, new_grains_inactive] at ha
      exact absurd ha (by simp)
  have hinv := processN_reuseInvariant lib s0 _ _ hbuf hlen hR1 hRcast rfl hinit m
  apply reuseInvariant_slot_free (processN lib m s0) _ _ _ _ hinv hc.2.2
  · rw [processN_params]
    exact hRcast
  · rw [← hRcast]
    exact hbound

theorem floor_1323 : ⌊(1323 : ℚ)⌋ = 1323 := by
  rw [Int.floor_eq_iff]
  constructor <;> norm_num

/-- Witness of C19: the freshly set up engine with the default parameters (grain rate
1323, grain size 441); its first step creates a grain. -/
theorem no_grain_cut_off_witness :
    (0 < 3 ∧ (∀ c ∈ ([] : List (Call ℚ)), Call.isSetter c = true) ∧
      16 * ⌊demoEngine.params.grainRate⌋ > min ⌊demoEngine.params.grainSize⌋ MAX_GRAIN_SIZE ∧
      createsGrain (processN libQ 0 demoEngine)) ∧
      ((processN libQ 0 demoEngine).grains (processN libQ 0 demoEngine).voiceCounter).active
        = false :=
  have hpar : 16 * ⌊demoEngine.params.grainRate⌋ >
      min ⌊demoEngine.params.grainSize⌋ MAX_GRAIN_SIZE := by
    show 16 * ⌊(1323 : ℚ)⌋ > min ⌊(441 : ℚ)⌋ MAX_GRAIN_SIZE
    rw [floor_1323, floor_441]
    decide
  have hc : createsGrain (processN libQ 0 demoEngine) :=
    ⟨rfl, by decide, remIndex_zero _⟩
  ⟨⟨by decide, by simp, hpar, hc⟩,
    no_grain_cut_off libQ 44100 demoBuffer 3 (by decide) [] (by simp) demoEngine rfl hpar 0 hc⟩

/-- The parameter pairs the setters produce from inputs in [0, 1] at 44100 Hz satisfy the
reuse bound: `floor(grainRate) >= 882`, so `16 * floor(grainRate) >= 14112 > 4410`. -/
theorem setters_satisfy_reuse_bound (lib : Libm ℝ) (hlib : RealLibm lib) (e : Granulator ℝ)
    (hsr : e.sampleRate = 44100) (x y : ℝ) (hx : 0 ≤ x) :
    882 ≤ ⌊(setGrainSize y (setGrainRate lib x e)).params.grainRate⌋ ∧
      16 * ⌊(setGrainSize y (setGrainRate lib x e)).params.grainRate⌋ >
        min ⌊(setGrainSize y (setGrainRate lib x e)).params.grainSize⌋ MAX_GRAIN_SIZE := by
  have hrate : (setGrainSize y (setGrainRate lib x e)).params.grainRate =
      (setGrainRate lib x e).params.grainRate := rfl
  have hpow : (1 : ℝ) ≤ (10 : ℝ) ^ x := Real.one_le_rpow (by norm_num) hx
  have h882 : (882 : ℝ) ≤ (setGrainRate lib x e).params.grainRate := by
    rw [setGrainRate_real lib hlib e hsr]
    apply le_max_of_le_left
    linarith
  have hfloor : 882 ≤ ⌊(setGrainSize y (setGrainRate lib x e)).params.grainRate⌋ := by
    rw [hrate]
    apply Int.le_floor.mpr
    push_cast
    exact h882
  refine ⟨hfloor, ?_⟩
  have hmin : min ⌊(setGrainSize y (setGrainRate lib x e)).params.grainSize⌋ MAX_GRAIN_SIZE
      ≤ MAX_GRAIN_SIZE := min_le_right _ _
  have hM : MAX_GRAIN_SIZE = 4410 := rfl
  rw [hM] at hmin ⊢
  omega

/-! ## Rendering and grain creation on the states the engine reaches -/

/-- C3: in every state the engine reaches from its construction by any sequence of
`setup` calls, steps and setter calls with inputs in [0, 1], when a step creates a grain
in slot `grains[voiceCounter]`, then right after the creation, with
`n = min(floor(grainSize), MAX_GRAIN_SIZE)` and `p = round(playbackPosition)` taken at
the playback position already advanced by this step's `playbackRate`,
`table[i] = read(p + i)` for every `0 <= i < n`, `startIndex` is the step's `globalIndex`
and the voice is active. -/
theorem makeGrain_copies_from_round {K : Type} [LinearOrderedField K] [FloorRing K]
    (lib : Libm K) (calls : List (Call K)) (hcalls : ∀ c ∈ calls, Call.inUnitRange c)
    (e : Granulator K) (he : e = runCalls lib calls Granulator.new)
    (hc : createsGrain e) :
    (advanceAndTrigger e).playbackPosition = e.playbackPosition + e.params.playbackRate ∧
      (∀ i : Int, 0 ≤ i → i < min ⌊e.params.grainSize⌋ MAX_GRAIN_SIZE →
        ((advanceAndTrigger e).grains e.voiceCounter).table i =
          readAudioSample (advanceAndTrigger e)
            (round (advanceAndTrigger e).playbackPosition + i)) ∧
      ((advanceAndTrigger e).grains e.voiceCounter).startIndex = e.globalIndex ∧
      ((advanceAndTrigger e).grains e.voiceCounter).active = true := by
  have hnew : 0 ≤ (Granulator.new : Granulator K).params.playbackRate ∧
      0 ≤ (Granulator.new : Granulator K).playbackPosition ∧
      (0 < (Granulator.new : Granulator K).audioLength →
        (Granulator.new : Granulator K).playbackPosition <
          ((Granulator.new : Granulator K).audioLength : K)) := by
    refine ⟨?_, le_rfl, ?_⟩
    · show (0 : K) ≤ 1
      exact zero_le_one
    · intro h
      exact absurd h (lt_irrefl 0)
  have hinv := runCalls_keeps_position lib calls Granulator.new hcalls hnew
  rw [← he] at hinv
  have hpos : 0 ≤ (advanceAndTrigger e).playbackPosition := by
    rw [advanceAndTrigger_playbackPosition]
    exact add_nonneg hinv.2.1 hinv.1
  have hfill := advanceAndTrigger_fills_table e hc.2.2
  refine ⟨advanceAndTrigger_playbackPosition e, ?_, hfill.2.2.1, hfill.2.2.2⟩
  intro i h0 hn
  rw [← hfill.2.1 hpos]
  exact hfill.1 i h0 hn

theorem process_creates_active_voice {K : Type} [LinearOrderedField K] [FloorRing K]
    (lib : Libm K) (e : Granulator K) (hbuf : e.audioBuffer.isSome = true)
    (hL : 0 < e.audioLength)
    (hnw : ¬ (e.playbackPosition + e.params.playbackRate ≥ (e.audioLength : K)))
    (ht : triggers e) (hgs : 0 < castInt e.params.grainSize)
    (hv : 0 ≤ e.voiceCounter ∧ e.voiceCounter < 16) :
    ((process lib e).2.grains e.voiceCounter).startIndex = e.globalIndex ∧
      ((process lib e).2.grains e.voiceCounter).active = true := by
  have hg : (advanceAndTrigger e).grains e.voiceCounter = createdGrain e := by
    rw [advanceAndTrigger_grains, if_pos ht, Function.update_same]
  have hin : inGrain (advanceAndTrigger e) e.voiceCounter := by
    unfold inGrain grainPhase
    rw [hg, advanceAndTrigger_globalIndex, advanceAndTrigger_params]
    have hs : (createdGrain e).startIndex = e.globalIndex := rfl
    have hM : MAX_GRAIN_SIZE = 4410 := rfl
    rw [hs, hM]
    constructor <;> omega
  have hr : renderedGrain (advanceAndTrigger e) e.voiceCounter = createdGrain e := by
    unfold renderedGrain
    rw [if_neg (fun h => h.2 hin), hg]
  rw [process_snd_bound lib e hbuf hL, if_neg hnw]
  simp only [hv, and_self, if_true, hr]
  exact ⟨rfl, rfl⟩

theorem staleEngine_voice_ahead :
    (staleEngine.grains 1).active = true ∧
      staleEngine.globalIndex < (staleEngine.grains 1).startIndex := by
  have hpow : libQ.powf ((2 / 10) * 50 / ((2 / 100) * 50)) 0 = 1 := by
    have hf : ⌊(0 : ℚ)⌋ = 0 := Int.floor_zero
    show ((2 / 10 : ℚ) * 50 / ((2 / 100) * 50)) ^ ⌊(0 : ℚ)⌋ *
      (1 + (0 - (⌊(0 : ℚ)⌋ : ℚ)) * ((2 / 10) * 50 / ((2 / 100) * 50) - 1)) = 1
    rw [hf]
    norm_num
  have hrate : (runCalls libQ [Call.setup 50 (some demoBuffer) 3, Call.setGrainRate 0,
      Call.setPlaybackRate 0] Granulator.new).params.grainRate = 1 := by
    show max ((2 / 100 : ℚ) * 50 * libQ.powf ((2 / 10) * 50 / ((2 / 100) * 50)) 0) 1 = 1
    rw [hpow]
    norm_num
  have hcast1 : castInt (1 : ℚ) = 1 := by
    rw [castInt_of_nonneg _ zero_le_one, Int.floor_one]
  have htrig : ∀ e : Granulator ℚ, e.params.grainRate = 1 → triggers e := by
    intro e h
    unfold triggers remIndex
    rw [h, hcast1]
    simp
  have hnowrap : ∀ e : Granulator ℚ, e.playbackPosition = 0 → e.params.playbackRate = 0 →
      e.audioLength = 3 → ¬ (e.playbackPosition + e.params.playbackRate ≥ (e.audioLength : ℚ)) := by
    intro e h1 h2 h3
    rw [h1, h2, h3]
    norm_num
  have hs3b : (runCalls libQ [Call.setup 50 (some demoBuffer) 3, Call.setGrainRate 0,
      Call.setPlaybackRate 0] Granulator.new).audioBuffer.isSome = true := rfl
  have hs3l : 0 < (runCalls libQ [Call.setup 50 (some demoBuffer) 3, Call.setGrainRate 0,
      Call.setPlaybackRate 0] Granulator.new).audioLength := by
    show 0 < 3
    decide
  have hs3pr : (runCalls libQ [Call.setup 50 (some demoBuffer) 3, Call.setGrainRate 0,
      Call.setPlaybackRate 0] Granulator.new).params.playbackRate = 0 := by
    show (0 : ℚ) * 2 = 0
    norm_num
  have hs3nw := hnowrap _ rfl hs3pr rfl
  have hc3 : createsGrain (runCalls libQ [Call.setup 50 (some demoBuffer) 3,
      Call.setGrainRate 0, Call.setPlaybackRate 0] Granulator.new) :=
    ⟨hs3b, hs3l, htrig _ hrate⟩
  have hstate : staleEngine =
      setup 50 (some demoBuffer) 3 (process libQ (process libQ
        (runCalls libQ [Call.setup 50 (some demoBuffer) 3, Call.setGrainRate 0,
          Call.setPlaybackRate 0] Granulator.new)).2).2 := rfl
  have h1b := process_audioBuffer libQ (runCalls libQ [Call.setup 50 (some demoBuffer) 3,
    Call.setGrainRate 0, Call.setPlaybackRate 0] Granulator.new)
  have h1l := process_audioLength libQ (runCalls libQ [Call.setup 50 (some demoBuffer) 3,
    Call.setGrainRate 0, Call.setPlaybackRate 0] Granulator.new)
  have h1p := process_params libQ (runCalls libQ [Call.setup 50 (some demoBuffer) 3,
    Call.setGrainRate 0, Call.setPlaybackRate 0] Granulator.new)
  have h1g := process_globalIndex libQ _ hs3b hs3l
  have h1pp := process_playbackPosition libQ _ hs3b hs3l
  have h1v := process_voiceCounter libQ (runCalls libQ [Call.setup 50 (some demoBuffer) 3,
    Call.setGrainRate 0, Call.setPlaybackRate 0] Granulator.new)
  rw [if_neg hs3nw] at h1g h1pp
  rw [if_pos hc3] at h1v
  have h1v1 : (process libQ (runCalls libQ [Call.setup 50 (some demoBuffer) 3,
      Call.setGrainRate 0, Call.setPlaybackRate 0] Granulator.new)).2.voiceCounter = 1 := by
    rw [h1v]
    decide
  have h1g1 : (process libQ (runCalls libQ [Call.setup 50 (some demoBuffer) 3,
      Call.setGrainRate 0, Call.setPlaybackRate 0] Granulator.new)).2.globalIndex = 1 := by
    rw [h1g]
    rfl
  have h1pp0 : (process libQ (runCalls libQ [Call.setup 50 (some demoBuffer) 3,
      Call.setGrainRate 0, Call.setPlaybackRate 0] Granulator.new)).2.playbackPosition = 0 := by
    rw [h1pp, hs3pr]
    show (0 : ℚ) + 0 = 0
    norm_num
  have hgs : (0 : Int) < castInt (process libQ (runCalls libQ
      [Call.setup 50 (some demoBuffer) 3, Call.setGrainRate 0, Call.setPlaybackRate 0]
      Granulator.new)).2.params.grainSize := by
    rw [h1p]
    have : castInt (runCalls libQ [Call.setup 50 (some demoBuffer) 3, Call.setGrainRate 0,
        Call.setPlaybackRate 0] Granulator.new).params.grainSize = 441 := castInt_441
    rw [this]
    decide
  have hmade := process_creates_active_voice libQ
    (process libQ (runCalls libQ [Call.setup 50 (some demoBuffer) 3, Call.setGrainRate 0,
      Call.setPlaybackRate 0] Granulator.new)).2
    (by rw [h1b]; exact hs3b) (by rw [h1l]; exact hs3l)
    (hnowrap _ h1pp0 (by rw [h1p]; exact hs3pr) (by rw [h1l]; rfl))
    (htrig _ (by rw [h1p]; exact hrate)) hgs (by rw [h1v1]; decide)
  rw [h1v1, h1g1] at hmade
  rw [hstate, setup_grains]
  refine ⟨hmade.2, ?_⟩
  rw [hmade.1]
  show 0 < 1
  decide

/-- Witness of C3: the first step of the freshly set up engine creates a grain in
slot 0. -/
theorem makeGrain_copies_from_round_witness :
    ((∀ c ∈ [Call.setup (44100 : ℚ) (some demoBuffer) 3], Call.inUnitRange c) ∧
      demoEngine = runCalls libQ [Call.setup (44100 : ℚ) (some demoBuffer) 3] Granulator.new ∧
      createsGrain demoEngine) ∧
      ((advanceAndTrigger demoEngine).grains demoEngine.voiceCounter).startIndex =
        demoEngine.globalIndex ∧
      ((advanceAndTrigger demoEngine).grains demoEngine.voiceCounter).active = true :=
  have hcalls : ∀ c ∈ [Call.setup (44100 : ℚ) (some demoBuffer) 3], Call.inUnitRange c := by
    intro c hc
    simp only [List.mem_singleton] at hc
    subst hc
    trivial
  have hc : createsGrain demoEngine := ⟨rfl, by decide, remIndex_zero _⟩
  ⟨⟨hcalls, rfl, hc⟩,
    (makeGrain_copies_from_round libQ _ hcalls demoEngine rfl hc).2.2⟩

end ChronoLoop
